import Mathlib

/-!
# Tiramisu tutorials and benchmark helpers: a verification development

The development covers

* `tutorials/developers/tutorial_04B/tutorial_04B.cpp`: the fused, tiled
  matrix products `C = A * B`, `E = A * D`, the Halide statement that the
  tutorial records as generated code, and the untiled loop nest of its
  header comment;
* `benchmarks/DNN/layers/convolution/direct/cpu_sparse_with_dense/configure.h`:
  the two `median` overloads;
* the tiling transformation `tile`, whose implementation lives in the
  Tiramisu library and is described here from the specification.
-/

namespace Tutorial04B

/-! ## Machine arithmetic of the generated Halide statement -/

/-- Two's-complement wrap of an integer into the `int32` range. -/
def int32 (x : Int) : Int := (x + 2147483648) % 4294967296 - 2147483648

/-- Two's-complement wrap of an integer into the `int64` range. -/
def int64 (x : Int) : Int :=
  (x + 9223372036854775808) % 18446744073709551616 - 9223372036854775808

/-- Wrap of a natural number into the `uint8` range. -/
def uint8 (x : Nat) : Nat := x % 256

/-- Halide `a + b` at type `int32`. -/
def add32 (a b : Int) : Int := int32 (a + b)

/-- Halide `a - b` at type `int32`. -/
def sub32 (a b : Int) : Int := int32 (a - b)

/-- Halide `a * b` at type `int32`. -/
def mul32 (a b : Int) : Int := int32 (a * b)

/-- Halide `a / b` at type `int32`: division rounding towards minus infinity. -/
def div32 (a b : Int) : Int := int32 (Int.fdiv a b)

/-- Halide `a * b` at type `int64`. -/
def mul64 (a b : Int) : Int := int64 (a * b)

/-- Halide `a + b` at type `uint8`. -/
def add8 (a b : Nat) : Nat := uint8 (a + b)

/-- Halide `a * b` at type `uint8`. -/
def mul8 (a b : Nat) : Nat := uint8 (a * b)

/-- Number of low-order bits that do not fit a 24-bit significand: the least
`e` with `m / 2 ^ e < 2 ^ 24`, searched with `fuel` halvings. -/
def f32Shift : Nat → Nat → Nat
  | 0, _ => 0
  | fuel + 1, m => if m < 16777216 then 0 else f32Shift fuel (m / 2) + 1

/-- Rounding of the magnitude `m` to a multiple of `2 ^ e`, to nearest, ties to
the even significand. -/
def roundNearestEven (m e : Nat) : Nat :=
  let q := m / 2 ^ e
  let r := m % 2 ^ e
  let q1 := if 2 * r < 2 ^ e then q else if 2 * r = 2 ^ e ∧ q % 2 = 0 then q else q + 1
  q1 * 2 ^ e

/-- Halide `float32(x)` of an integer: the nearest IEEE-754 binary32 value
(24-bit significand, round to nearest even), as an exact rational. -/
def float32 (x : Int) : ℚ :=
  let m := x.natAbs
  let v := roundNearestEven m (f32Shift 64 m)
  if x < 0 then -(v : ℚ) else (v : ℚ)

/-- Halide `floor_f32`. -/
def floor_f32 (q : ℚ) : ℚ := ((⌊q⌋ : Int) : ℚ)

/-- Halide `int32(q)` of a float: truncation towards zero, then the `int32` range. -/
def int32_of_f32 (q : ℚ) : Int := int32 (if 0 ≤ q then ⌊q⌋ else ⌈q⌉)

/-! ## Loop bounds of the generated statement -/

/-- Extent of the loops `c1` and `c3`:
`((int32(floor_f32(float32(((N + -1)/32)))) + 1) - 0)`. -/
def outerExtent (N : Int) : Int :=
  sub32 (add32 (int32_of_f32 (floor_f32 (float32 (div32 (add32 N (-1)) 32)))) 1) 0

/-- Extent of the loops `c5` and `c7`, `(min((N - (c*32)), 32) - 0)`, where `c`
is the enclosing `c1`, respectively `c3`. -/
def innerExtent (N c : Int) : Int :=
  sub32 (min (sub32 N (mul32 c 32)) 32) 0

/-- Extent of the loops `c9`: `(N - 0)`. -/
def redExtent (N : Int) : Int := sub32 N 0

/-! ## The generated statement -/

/-- The four scheduled computations of the tutorial. -/
inductive Comp
  | C_init
  | E_init
  | c_C
  | c_E
  deriving DecidableEq, Repr

/-- The five buffers of the tutorial. -/
inductive Buffer
  | b_A
  | b_B
  | b_C
  | b_D
  | b_E
  deriving DecidableEq, Repr

/-- A buffer reference with its offset already evaluated. -/
structure Ref where
  buf : Buffer
  off : Int
  deriving DecidableEq, Repr

/-- Right-hand side of a store of the generated statement. -/
inductive Rhs
  /-- The constant `(uint8)0` -/
  | zero
  /-- The value `acc + x * y` at type `uint8`, each operand a buffer load -/
  | mac (acc x y : Ref)
  deriving DecidableEq, Repr

/-- One executed store of the generated statement: the computation it comes
from, the values of the enclosing loop variables (`c9` only inside a `c9`
loop), the reference that is written and the value expression. -/
structure Inst where
  comp : Comp
  c1 : Int
  c3 : Int
  c5 : Int
  c7 : Int
  c9 : Option Int
  dst : Ref
  rhs : Rhs
  deriving DecidableEq, Repr

/-- Halide `for (c, min, extent) body`, also used for `parallel` run in
increasing order: the stores of `body c` for `c = min, ..., min + extent - 1`. -/
def forLoop (min extent : Int) (body : Int → List Inst) : List Inst :=
  (List.range extent.toNat).flatMap fun t => body (min + (t : Int))

/-- The tile-reconstructed index `((32*c) + d)` at type `int32`. -/
def tiled (c d : Int) : Int := add32 (mul32 32 c) d

/-- The shape of every offset of the generated statement:
`((0 + int32((int64(col)*(int64)1))) + int32((int64(row)*(int64)1000)))`. -/
def offset (col row : Int) : Int :=
  add32 (add32 0 (int32 (mul64 (int64 col) 1))) (int32 (mul64 (int64 row) 1000))

/-- The store `b_C[...] = (uint8)0` of line 131. -/
def stmt_C_init (c1 c3 c5 c7 : Int) : Inst :=
  { comp := .C_init, c1 := c1, c3 := c3, c5 := c5, c7 := c7, c9 := none,
    dst := ⟨.b_C, offset (tiled c3 c7) (tiled c1 c5)⟩,
    rhs := .zero }

/-- The store `b_E[...] = (uint8)0` of line 132. -/
def stmt_E_init (c1 c3 c5 c7 : Int) : Inst :=
  { comp := .E_init, c1 := c1, c3 := c3, c5 := c5, c7 := c7, c9 := none,
    dst := ⟨.b_E, offset (tiled c3 c7) (tiled c1 c5)⟩,
    rhs := .zero }

/-- The store `b_C[...] = (b_C[...] + (b_A[...]*b_B[...]))` of line 134. -/
def stmt_c_C (c1 c3 c5 c7 c9 : Int) : Inst :=
  { comp := .c_C, c1 := c1, c3 := c3, c5 := c5, c7 := c7, c9 := some c9,
    dst := ⟨.b_C, offset (tiled c3 c7) (tiled c1 c5)⟩,
    rhs := .mac ⟨.b_C, offset (tiled c3 c7) (tiled c1 c5)⟩
                ⟨.b_A, offset c9 (tiled c1 c5)⟩
                ⟨.b_B, offset (tiled c3 c7) c9⟩ }

/-- The store `b_E[...] = (b_E[...] + (b_A[...]*b_D[...]))` of line 137. -/
def stmt_c_E (c1 c3 c5 c7 c9 : Int) : Inst :=
  { comp := .c_E, c1 := c1, c3 := c3, c5 := c5, c7 := c7, c9 := some c9,
    dst := ⟨.b_E, offset (tiled c3 c7) (tiled c1 c5)⟩,
    rhs := .mac ⟨.b_E, offset (tiled c3 c7) (tiled c1 c5)⟩
                ⟨.b_A, offset c9 (tiled c1 c5)⟩
                ⟨.b_D, offset (tiled c3 c7) c9⟩ }

/-- Body of the `c7` loop (lines 131 to 138). -/
def body (N c1 c3 c5 c7 : Int) : List Inst :=
  [stmt_C_init c1 c3 c5 c7, stmt_E_init c1 c3 c5 c7]
    ++ forLoop 0 (redExtent N) (fun c9 => [stmt_c_C c1 c3 c5 c7 c9])
    ++ forLoop 0 (redExtent N) (fun c9 => [stmt_c_E c1 c3 c5 c7 c9])

/-- The `c7` loop of line 130 with its body. -/
def loop_c7 (N c1 c3 c5 : Int) : List Inst :=
  forLoop 0 (innerExtent N c3) fun c7 => body N c1 c3 c5 c7

/-- The `c5` loop of line 129 with its body. -/
def loop_c5 (N c1 c3 : Int) : List Inst :=
  forLoop 0 (innerExtent N c1) fun c5 => loop_c7 N c1 c3 c5

/-- The `c3` loop of line 128 with its body. -/
def loop_c3 (N c1 : Int) : List Inst :=
  forLoop 0 (outerExtent N) fun c3 => loop_c5 N c1 c3

/-- The loop nest of lines 127 to 142, for a value `N` of the parameter, with
the `parallel` loop `c1` run sequentially in increasing `c1`. -/
def generated_nest (N : Int) : List Inst :=
  forLoop 0 (outerExtent N) fun c1 =>
  forLoop 0 (outerExtent N) fun c3 =>
  forLoop 0 (innerExtent N c1) fun c5 =>
  forLoop 0 (innerExtent N c3) fun c7 =>
  body N c1 c3 c5 c7

/-- The generated statement: `let N = 1000` followed by the loop nest. -/
def generated : List Inst := generated_nest 1000

/-- The iterations of the `parallel` loop of line 127: iteration `c1` executes
the stores of its `c3` loop in their sequential order; there is no iteration
outside the loop bounds. -/
def iterations (N : Int) : Int → List Inst :=
  fun c1 => if 0 ≤ c1 ∧ c1 < 0 + outerExtent N then loop_c3 N c1 else []

/-- Concurrent execution of the iterations `th` of a `parallel` loop: at each
step some iteration executes its next store. The list is the order in which
the stores are executed. -/
inductive Interleaving : (Int → List Inst) → List Inst → Prop
  | done (th : Int → List Inst) (h : ∀ c, th c = []) : Interleaving th []
  | step (th : Int → List Inst) (c : Int) (x : Inst) (l t : List Inst) (h : th c = x :: l)
      (rest : Interleaving (Function.update th c l) t) : Interleaving th (x :: t)

/-- The executions of the loop nest of lines 127 to 142: the iterations of the
`parallel` loop `c1` interleaved in any way. -/
def Execution (N : Int) (t : List Inst) : Prop := Interleaving (iterations N) t

/-- One execution with two iterations overlapping: the first store of
iteration `c1 = 0`, then iteration `c1 = 1`, then the rest of iteration
`c1 = 0`, then the iterations from `c1 = 2` on. -/
def interleaved_run (N : Int) : List Inst :=
  (loop_c3 N 0).take 1 ++ loop_c3 N 1 ++ (loop_c3 N 0).drop 1
    ++ forLoop 2 (outerExtent N - 2) (loop_c3 N)

/-- The stores of one point in the order declared by `E_init.after(C_init, j1)`,
`c_C.after(E_init, j1)`, `c_E.after(c_C, j1)`: the store of `C_init`, the store
of `E_init`, the updates of `c_C` for `c9 = 0, ..., N - 1`, the updates of
`c_E` for `c9 = 0, ..., N - 1`. -/
def declaredOrder (N c1 c3 c5 c7 : Int) : List Inst :=
  [stmt_C_init c1 c3 c5 c7, stmt_E_init c1 c3 c5 c7]
    ++ (List.range N.toNat).map (fun k : Nat => stmt_c_C c1 c3 c5 c7 (k : Int))
    ++ (List.range N.toNat).map (fun k : Nat => stmt_c_E c1 c3 c5 c7 (k : Int))

/-- A point `(c1, c3, c5, c7)` lies inside the bounds of the four outer loops. -/
def inBounds (N c1 c3 c5 c7 : Int) : Prop :=
  (0 ≤ c1 ∧ c1 < 0 + outerExtent N) ∧ (0 ≤ c3 ∧ c3 < 0 + outerExtent N) ∧
  (0 ≤ c5 ∧ c5 < 0 + innerExtent N c1) ∧ (0 ≤ c7 ∧ c7 < 0 + innerExtent N c3)

instance (N c1 c3 c5 c7 : Int) : Decidable (inBounds N c1 c3 c5 c7) := by
  unfold inBounds; infer_instance

/-! ## Execution of stores on the buffers -/

/-- Contents of the five buffers, by offset. -/
abbrev Mem := Buffer → Int → Nat

/-- Number of elements of each buffer: `SIZE0 * SIZE0`. -/
def bufferSize : Int := 1000 * 1000

/-- An offset lies inside a buffer. -/
def validOff (o : Int) : Prop := 0 ≤ o ∧ o < bufferSize

instance (o : Int) : Decidable (validOff o) := by
  unfold validOff; infer_instance

/-- Memory after the store of `v` at `r`. -/
def write (m : Mem) (r : Ref) (v : Nat) : Mem :=
  fun b o => if b = r.buf ∧ o = r.off then v else m b o

/-- Value of a right-hand side, without bounds checks. -/
def evalRhs (m : Mem) : Rhs → Nat
  | .zero => uint8 0
  | .mac acc x y => add8 (m acc.buf acc.off) (mul8 (m x.buf x.off) (m y.buf y.off))

/-- Every load of a right-hand side is inside its buffer. -/
def Rhs.valid : Rhs → Prop
  | .zero => True
  | .mac acc x y => validOff acc.off ∧ validOff x.off ∧ validOff y.off

instance (r : Rhs) : Decidable r.valid := by
  cases r <;> unfold Rhs.valid <;> infer_instance

/-- Every access of a store is inside its buffer. -/
def Inst.valid (s : Inst) : Prop := validOff s.dst.off ∧ s.rhs.valid

instance (s : Inst) : Decidable s.valid := by
  unfold Inst.valid; infer_instance

/-- Effect of one store, without bounds checks. -/
def exec (m : Mem) (s : Inst) : Mem := write m s.dst (evalRhs m s.rhs)

/-- Effect of one store; an access outside a buffer has no defined result. -/
def step (m : Mem) (s : Inst) : Option Mem :=
  if s.valid then some (exec m s) else none

/-- Execution of a sequence of stores, in order. -/
def run : List Inst → Mem → Option Mem
  | [], m => some m
  | s :: rest, m =>
    match step m s with
    | none => none
    | some m1 => run rest m1

/-! ## The reference loop nest of the header comment -/

/-- The arrays `C` and `E` of the reference loop nest. -/
structure RefState where
  C : Int → Int → Nat
  E : Int → Int → Nat

/-- The loop `for v = 0 .. N` of the header comment: `v = 0, ..., N - 1`. -/
def forRange {σ : Type} (N : Int) (body : Int → σ → σ) (s : σ) : σ :=
  (List.range N.toNat).foldl (fun s (t : Nat) => body (t : Int) s) s

/-- Update of a two-dimensional array at `[i, j]`. -/
def set2 (M : Int → Int → Nat) (i j : Int) (v : Nat) : Int → Int → Nat :=
  fun a b => if a = i ∧ b = j then v else M a b

/-- Lines 10 to 15 of the header comment: the statements under `for j`. -/
def reference_body (N : Int) (A B D : Int → Int → Nat) (i j : Int) (s : RefState) : RefState :=
  let s1 : RefState := { s with C := set2 s.C i j (uint8 0) }
  let s2 : RefState := { s1 with E := set2 s1.E i j (uint8 0) }
  let s3 := forRange N (fun k (s : RefState) =>
    { s with C := set2 s.C i j (add8 (s.C i j) (mul8 (A i k) (B k j))) }) s2
  forRange N (fun k (s : RefState) =>
    { s with E := set2 s.E i j (add8 (s.E i j) (mul8 (A i k) (D k j))) }) s3

/-- The loop nest of the header comment (lines 8 to 15), on `uint8` elements. -/
def reference (N : Int) (A B D : Int → Int → Nat) (s : RefState) : RefState :=
  forRange N (fun i s => forRange N (fun j s => reference_body N A B D i j s) s) s

/-- The matrix stored row-major in a `1000 x 1000` buffer. -/
def matrixOf (b : Int → Nat) : Int → Int → Nat := fun i j => b (i * 1000 + j)

/-- The sum `sum over k < n of X[i,k] * Y[k,j]`, over the naturals. -/
def dot (X Y : Int → Int → Nat) (i j : Int) (n : Nat) : Nat :=
  ∑ k ∈ Finset.range n, X i (k : Int) * Y (k : Int) j

end Tutorial04B

namespace Tile

/-! ## The tiling transformation -/

/-- Modelled from the spec: `tile` belongs to the Tiramisu library, whose
sources are not part of the tutorials; the tutorials only call it. This is the
number `ceil(extent / T)` of values of the outer dimension. -/
def outerCount (E T : Int) : Int := ⌈(E : ℚ) / (T : ℚ)⌉

/-- Modelled from the spec: the library function `tile` is only called by the
tutorials. A pair `(outer, inner)` belongs to the tiled domain of an extent `E`
under tile size `T` when `0 ≤ outer < ceil(E / T)` and
`0 ≤ inner < min(T, E − outer*T)`. -/
def inTile (E T : Int) (p : Int × Int) : Prop :=
  (0 ≤ p.1 ∧ p.1 < outerCount E T) ∧ (0 ≤ p.2 ∧ p.2 < min T (E - p.1 * T))

instance (E T : Int) (p : Int × Int) : Decidable (inTile E T p) := by
  unfold inTile; infer_instance

/-- Modelled from the spec: the original index `x = outer*T + inner` of a pair
of the tiled domain of the library function `tile`. -/
def original (T : Int) (p : Int × Int) : Int := p.1 * T + p.2

end Tile

namespace Configure

/-! ## The two `median` functions of `configure.h` -/

/-- Element `x[i]` of an array or vector; there is none outside of it. -/
def read {α : Type} (x : List α) (i : Int) : Option α :=
  if 0 ≤ i then x[i.toNat]? else none

/-- Execution of `body` for each index of `idx`, in order, on an array. -/
def forEach {α : Type} (idx : List Nat) (body : Nat → List α → Option (List α)) :
    List α → Option (List α) :=
  match idx with
  | [] => fun x => some x
  | k :: ks => fun x => (body k x).bind (forEach ks body)

/-- Lines 68 to 73: `if(x[j] < x[i]) { temp = x[i]; x[i] = x[j]; x[j] = temp; }`. -/
def swapIfLess {α : Type} [LinearOrder α] (i j : Nat) (x : List α) : Option (List α) :=
  (read x j).bind fun xj =>
  (read x i).bind fun xi =>
  if xj < xi then
    (read x i).bind fun temp =>
    (read x j).bind fun xj1 =>
    some ((x.set i xj1).set j temp)
  else some x

/-- Line 67: `for(j=i+1; j<n; j++)` with its body. -/
def innerLoop {α : Type} [LinearOrder α] (n : Int) (i : Nat) (x : List α) : Option (List α) :=
  forEach (List.range' (i + 1) (n - ((i : Int) + 1)).toNat) (fun j x => swapIfLess i j x) x

/-- Lines 66 to 75: `for(i=0; i<n-1; i++)` with its body, the two loops that
sort the array. -/
def sortLoops {α : Type} [LinearOrder α] (n : Int) (x : List α) : Option (List α) :=
  forEach (List.range (n - 1).toNat) (fun i x => innerLoop n i x) x

/-- The C function `median(int n, double x[])` (lines 60 to 84), on exact
values; `n / 2` and `n % 2` are the truncating operations of C. -/
def median_c {α : Type} [LinearOrderedField α] (n : Int) (x : List α) : Option α :=
  (sortLoops n x).bind fun x =>
  if Int.tmod n 2 = 0 then
    (read x (Int.tdiv n 2)).bind fun a =>
    (read x (Int.tdiv n 2 - 1)).bind fun b =>
    some ((a + b) / 2)
  else read x (Int.tdiv n 2)

/-- The call `sort(scores.begin(), scores.end())` of the C++ standard library:
the elements in ascending order. -/
def sort {α : Type} [LinearOrder α] (scores : List α) : List α :=
  scores.insertionSort (· ≤ ·)

/-- The C++ function `median(std::vector<double> scores)` (lines 41 to 58), on
exact values. The index `size / 2 - 1` is computed on the unsigned `size_t`:
below zero it wraps to an index beyond every vector, which `read` rejects like
a negative one. -/
def median {α : Type} [LinearOrderedField α] (scores : List α) : Option α :=
  let size : Nat := scores.length
  let scores := sort scores
  if size % 2 = 0 then
    (read scores ((size / 2 : Nat) - 1 : Int)).bind fun a =>
    (read scores ((size / 2 : Nat) : Int)).bind fun b =>
    some ((a + b) / 2)
  else read scores ((size / 2 : Nat) : Int)

/-- The value the median of an ascending list `s` of `n` elements is specified
to be: `s[n/2]` for odd `n`, `(s[n/2 - 1] + s[n/2]) / 2` for even `n`. -/
def medianOfSorted {α : Type} [LinearOrderedField α] (s : List α) : α :=
  if s.length % 2 = 1 then s.getD (s.length / 2) 0
  else (s.getD (s.length / 2 - 1) 0 + s.getD (s.length / 2) 0) / 2

end Configure

namespace Tutorial04B

theorem int32_of_range {x : Int} (h1 : -2147483648 ≤ x) (h2 : x < 2147483648) :
    int32 x = x := by
  unfold int32; omega

theorem int64_of_range {x : Int} (h1 : -9223372036854775808 ≤ x)
    (h2 : x < 9223372036854775808) : int64 x = x := by
  unfold int64; omega

theorem f32Shift_small (fuel m : Nat) (h : m < 16777216) : f32Shift fuel m = 0 := by
  cases fuel with
  | zero => rfl
  | succ k => simp [f32Shift, h]

theorem roundNearestEven_exact {m : Nat} (hm : m ≤ 16777216) :
    roundNearestEven m (f32Shift 64 m) = m := by
  rcases Nat.lt_or_ge m 16777216 with hlt | hge
  · simp [f32Shift_small 64 m hlt, roundNearestEven, Nat.mod_one]
  · have : m = 16777216 := by omega
    subst this
    norm_num [f32Shift, roundNearestEven]

theorem float32_exact {x : Int} (h1 : -16777216 ≤ x) (h2 : x ≤ 16777216) :
    float32 x = (x : ℚ) := by
  unfold float32
  have hm : x.natAbs ≤ 16777216 := by omega
  simp only [roundNearestEven_exact hm]
  obtain ⟨k, hk⟩ : ∃ k : Nat, x.natAbs = k := ⟨_, rfl⟩
  rw [hk]
  split_ifs with hx
  · have : x = -(k : Int) := by omega
    rw [this]; push_cast; ring
  · have : x = (k : Int) := by omega
    rw [this]; push_cast; ring

theorem int32_of_f32_floor {x : Int} (h1 : -2147483648 ≤ x) (h2 : x < 2147483648) :
    int32_of_f32 (floor_f32 (x : ℚ)) = x := by
  unfold floor_f32 int32_of_f32
  rw [Int.floor_intCast]
  split_ifs
  · rw [Int.floor_intCast, int32_of_range h1 h2]
  · rw [Int.ceil_intCast, int32_of_range h1 h2]

theorem outerExtent_eq_of_exact {N : Int} (h1 : -2147483647 ≤ N) (h2 : N ≤ 2147483647)
    (hx : float32 ((N - 1) / 32) = (((N - 1) / 32 : Int) : ℚ)) :
    outerExtent N = (N - 1) / 32 + 1 := by
  have hd : Int.fdiv (N - 1) 32 = (N - 1) / 32 :=
    Int.fdiv_eq_ediv _ (by norm_num : (0 : Int) ≤ 32)
  have ha : add32 N (-1) = N - 1 := by
    unfold add32; rw [int32_of_range] <;> omega
  have hq : div32 (add32 N (-1)) 32 = (N - 1) / 32 := by
    unfold div32; rw [ha, hd, int32_of_range] <;> omega
  have hf : int32_of_f32 (floor_f32 (float32 ((N - 1) / 32))) = (N - 1) / 32 := by
    rw [hx, int32_of_f32_floor] <;> omega
  unfold outerExtent
  rw [hq, hf]
  unfold sub32 add32
  rw [int32_of_range (x := (N - 1) / 32 + 1) (by omega) (by omega), int32_of_range] <;> omega

theorem outerExtent_eq {N : Int} (h1 : -536870000 ≤ N) (h2 : N ≤ 536870944) :
    outerExtent N = (N - 1) / 32 + 1 :=
  outerExtent_eq_of_exact (by omega) (by omega) (float32_exact (by omega) (by omega))

theorem innerExtent_eq {N c : Int} (h1 : 0 ≤ N) (h2 : N ≤ 2147483647)
    (hc0 : 0 ≤ c) (hc : c < (N - 1) / 32 + 1) :
    innerExtent N c = min (N - 32 * c) 32 := by
  unfold innerExtent sub32 mul32
  rw [int32_of_range (x := c * 32) (by omega) (by omega),
    int32_of_range (x := N - c * 32) (by omega) (by omega)]
  have : c * 32 = 32 * c := by ring
  rw [this, int32_of_range] <;> omega

theorem inBounds_iff {N c1 c3 c5 c7 : Int} (h1 : 0 ≤ N) (h2 : N ≤ 536870944) :
    inBounds N c1 c3 c5 c7 ↔
      (0 ≤ c1 ∧ 0 ≤ c5 ∧ c5 < 32 ∧ 32 * c1 + c5 < N) ∧
      (0 ≤ c3 ∧ 0 ≤ c7 ∧ c7 < 32 ∧ 32 * c3 + c7 < N) := by
  unfold inBounds
  rw [outerExtent_eq (by omega) h2]
  constructor
  · rintro ⟨⟨a1, a2⟩, ⟨b1, b2⟩, ⟨d1, d2⟩, ⟨e1, e2⟩⟩
    rw [innerExtent_eq h1 (by omega) a1 (by omega)] at d2
    rw [innerExtent_eq h1 (by omega) b1 (by omega)] at e2
    omega
  · rintro ⟨⟨a1, a2, a3, a4⟩, ⟨b1, b2, b3, b4⟩⟩
    rw [innerExtent_eq h1 (by omega) a1 (by omega), innerExtent_eq h1 (by omega) b1 (by omega)]
    omega

theorem redExtent_eq {N : Int} (h1 : 0 ≤ N) (h2 : N < 2147483648) : redExtent N = N := by
  unfold redExtent sub32 int32; omega

end Tutorial04B

namespace Tutorial04B

/-! ## Loops as lists -/

theorem mem_forLoop {min extent : Int} {body : Int → List Inst} {x : Inst} :
    x ∈ forLoop min extent body ↔ ∃ c, min ≤ c ∧ c < min + extent ∧ x ∈ body c := by
  unfold forLoop
  rw [List.mem_flatMap]
  constructor
  · rintro ⟨t, ht, hx⟩
    rw [List.mem_range] at ht
    exact ⟨min + t, by omega, by omega, hx⟩
  · rintro ⟨c, h1, h2, hx⟩
    refine ⟨(c - min).toNat, ?_, ?_⟩
    · rw [List.mem_range]; omega
    · have : min + ((c - min).toNat : Int) = c := by omega
      rw [this]; exact hx

theorem forLoop_split {min extent c : Int} (body : Int → List Inst)
    (h1 : min ≤ c) (h2 : c < min + extent) :
    forLoop min extent body
      = forLoop min (c - min) body ++ body c
          ++ forLoop (c + 1) (min + extent - (c + 1)) body := by
  unfold forLoop
  have hn : extent.toNat = (c - min).toNat + (1 + (min + extent - (c + 1)).toNat) := by omega
  rw [hn, List.range_add, List.flatMap_append, List.range_add, List.map_append,
    List.flatMap_append, List.flatMap_map, List.flatMap_map]
  have e1 : min + (((c - min).toNat + 0 : Nat) : Int) = c := by omega
  have r1 : List.range 1 = [0] := rfl
  simp only [r1, List.map_cons, List.map_nil, List.flatMap_cons, List.flatMap_nil,
    List.append_nil, e1, List.append_assoc]
  congr 2
  rw [List.flatMap_map]
  apply List.flatMap_congr
  intro t _
  show body _ = body _
  congr 1
  push_cast
  omega

theorem tiled_eq {c d : Int} (hc : 0 ≤ c) (hd : 0 ≤ d) (h : 32 * c + d < 2147483648) :
    tiled c d = 32 * c + d := by
  unfold tiled add32 mul32 int32; omega

theorem offset_eq {col row : Int} (hc : 0 ≤ col) (hr : 0 ≤ row)
    (h : row * 1000 + col < 2147483648) : offset col row = row * 1000 + col := by
  unfold offset add32 mul64 int64 int32; omega

end Tutorial04B

namespace Tutorial04B

/-! ## The stores of the generated statement -/

theorem mem_body {N c1 c3 c5 c7 : Int} {x : Inst} :
    x ∈ body N c1 c3 c5 c7 ↔
      x = stmt_C_init c1 c3 c5 c7 ∨ x = stmt_E_init c1 c3 c5 c7 ∨
      (∃ c9, (0 ≤ c9 ∧ c9 < 0 + redExtent N) ∧ x = stmt_c_C c1 c3 c5 c7 c9) ∨
      (∃ c9, (0 ≤ c9 ∧ c9 < 0 + redExtent N) ∧ x = stmt_c_E c1 c3 c5 c7 c9) := by
  unfold body
  simp only [List.mem_append, List.mem_cons, List.mem_singleton, mem_forLoop,
    List.not_mem_nil, or_false]
  constructor
  · rintro (((h | h) | ⟨c, a, b, h⟩) | ⟨c, a, b, h⟩)
    · exact Or.inl h
    · exact Or.inr (Or.inl h)
    · exact Or.inr (Or.inr (Or.inl ⟨c, ⟨a, b⟩, h⟩))
    · exact Or.inr (Or.inr (Or.inr ⟨c, ⟨a, b⟩, h⟩))
  · rintro (h | h | ⟨c, ⟨a, b⟩, h⟩ | ⟨c, ⟨a, b⟩, h⟩)
    · exact Or.inl (Or.inl (Or.inl h))
    · exact Or.inl (Or.inl (Or.inr h))
    · exact Or.inl (Or.inr ⟨c, a, b, h⟩)
    · exact Or.inr ⟨c, a, b, h⟩

theorem mem_generated_nest {N : Int} {x : Inst} :
    x ∈ generated_nest N ↔
      ∃ c1 c3 c5 c7, inBounds N c1 c3 c5 c7 ∧ x ∈ body N c1 c3 c5 c7 := by
  unfold generated_nest inBounds
  simp only [mem_forLoop]
  constructor
  · rintro ⟨c1, a1, a2, c3, b1, b2, c5, d1, d2, c7, e1, e2, h⟩
    exact ⟨c1, c3, c5, c7, ⟨⟨a1, a2⟩, ⟨b1, b2⟩, ⟨d1, d2⟩, ⟨e1, e2⟩⟩, h⟩
  · rintro ⟨c1, c3, c5, c7, ⟨⟨a1, a2⟩, ⟨b1, b2⟩, ⟨d1, d2⟩, ⟨e1, e2⟩⟩, h⟩
    exact ⟨c1, a1, a2, c3, b1, b2, c5, d1, d2, c7, e1, e2, h⟩

/-- Every store of `body` carries the loop variables of its point. -/
theorem body_point {N c1 c3 c5 c7 : Int} {x : Inst} (h : x ∈ body N c1 c3 c5 c7) :
    x.c1 = c1 ∧ x.c3 = c3 ∧ x.c5 = c5 ∧ x.c7 = c7 := by
  rcases mem_body.1 h with h | h | ⟨c, _, h⟩ | ⟨c, _, h⟩ <;> subst h <;>
    exact ⟨rfl, rfl, rfl, rfl⟩

/-- Every store of `body` writes the offset of its point. -/
theorem body_dst_off {N c1 c3 c5 c7 : Int} {x : Inst} (h : x ∈ body N c1 c3 c5 c7) :
    x.dst.off = offset (tiled c3 c7) (tiled c1 c5) := by
  rcases mem_body.1 h with h | h | ⟨c, _, h⟩ | ⟨c, _, h⟩ <;> subst h <;> rfl

/-- Inside the bounds, for `N` up to the buffer extent, the store offset is the
row-major offset of the reconstructed indices, without wrap-around. -/
theorem point_offset {N c1 c3 c5 c7 : Int} (h1 : 0 ≤ N) (h2 : N ≤ 1000)
    (hb : inBounds N c1 c3 c5 c7) :
    offset (tiled c3 c7) (tiled c1 c5) = (32 * c1 + c5) * 1000 + (32 * c3 + c7) := by
  rw [inBounds_iff h1 (by omega)] at hb
  rw [tiled_eq (by omega) (by omega) (by omega), tiled_eq (by omega) (by omega) (by omega),
    offset_eq (by omega) (by omega) (by omega)]

end Tutorial04B

namespace Tutorial04B

/-! ## Loop bounds, offsets and disjointness of the stores -/

theorem ceil_div_32 (N : Int) : ⌈(N : ℚ) / 32⌉ = (N - 1) / 32 + 1 := by
  rw [Int.ceil_eq_iff]
  have hN : N = 32 * ((N - 1) / 32) + (N - 1) % 32 + 1 := by omega
  have hr0 : (0 : ℚ) ≤ (((N - 1) % 32 : Int) : ℚ) := by
    have : (0 : Int) ≤ (N - 1) % 32 := by omega
    exact_mod_cast this
  have hr1 : (((N - 1) % 32 : Int) : ℚ) ≤ 31 := by
    have : (N - 1) % 32 ≤ 31 := by omega
    exact_mod_cast this
  have hq : (N : ℚ) = 32 * (((N - 1) / 32 : Int) : ℚ) + (((N - 1) % 32 : Int) : ℚ) + 1 := by
    exact_mod_cast hN
  push_cast
  constructor
  · rw [lt_div_iff₀ (by norm_num : (0 : ℚ) < 32)]
    push_cast at hq
    linarith
  · rw [div_le_iff₀ (by norm_num : (0 : ℚ) < 32)]
    push_cast at hq
    linarith

/-- C6 (amended): for every `int32` value `N ≥ 1` whose quotient
`floor((N - 1)/32)` is a `float32` value, which includes every
`1 ≤ N ≤ 536870944`, the extent emitted for `c1` and `c3` is
`floor((N - 1)/32) + 1 = ceil(N/32)` and the extent emitted for `c5` and `c7`
under an outer index inside its loop is `min(N - 32*outer, 32)`; for `N = 1000`
the outer loops run 32 iterations and the last tile has inner extent 8. -/
theorem loop_bounds_tiled (N : Int) (h1 : 1 ≤ N) (h2 : N ≤ 2147483647)
    (hx : float32 ((N - 1) / 32) = (((N - 1) / 32 : Int) : ℚ)) :
    outerExtent N = (N - 1) / 32 + 1 ∧
    outerExtent N = ⌈(N : ℚ) / 32⌉ ∧
    (∀ outer : Int, 0 ≤ outer → outer < outerExtent N →
      innerExtent N outer = min (N - 32 * outer) 32) ∧
    (∀ M : Int, 1 ≤ M → M ≤ 536870944 →
      float32 ((M - 1) / 32) = (((M - 1) / 32 : Int) : ℚ)) ∧
    outerExtent 1000 = 32 ∧ innerExtent 1000 31 = min (1000 - 32 * 31) 32 ∧
    innerExtent 1000 31 = 8 := by
  have e := outerExtent_eq_of_exact (N := N) (by omega) h2 hx
  have e1000 := outerExtent_eq (N := 1000) (by norm_num) (by norm_num)
  have i1000 := innerExtent_eq (N := 1000) (c := 31) (by norm_num) (by norm_num)
    (by norm_num) (by norm_num)
  refine ⟨e, ?_, ?_, ?_, ?_, ?_, ?_⟩
  · rw [ceil_div_32, e]
  · intro outer h0 h
    rw [e] at h
    exact innerExtent_eq (by omega) h2 h0 h
  · intro M hM1 hM2
    exact float32_exact (by omega) (by omega)
  · rw [e1000]; norm_num
  · exact i1000
  · rw [i1000]; norm_num

/-- C6, witness: the bounds at `N = 1000`. -/
theorem loop_bounds_tiled_witness :
    ((1 : Int) ≤ 1000 ∧ (1000 : Int) ≤ 2147483647 ∧
      float32 ((1000 - 1) / 32) = (((1000 - 1) / 32 : Int) : ℚ)) ∧
    (outerExtent 1000 = (1000 - 1) / 32 + 1 ∧
    outerExtent 1000 = ⌈((1000 : Int) : ℚ) / 32⌉ ∧
    (∀ outer : Int, 0 ≤ outer → outer < outerExtent 1000 →
      innerExtent 1000 outer = min (1000 - 32 * outer) 32) ∧
    (∀ M : Int, 1 ≤ M → M ≤ 536870944 →
      float32 ((M - 1) / 32) = (((M - 1) / 32 : Int) : ℚ)) ∧
    outerExtent 1000 = 32 ∧ innerExtent 1000 31 = min (1000 - 32 * 31) 32 ∧
    innerExtent 1000 31 = 8) :=
  ⟨⟨by decide, by decide, float32_exact (by decide) (by decide)⟩,
    loop_bounds_tiled 1000 (by decide) (by decide) (float32_exact (by decide) (by decide))⟩

/-- C6, counterexample: at `N = 536870945` the quotient `(N - 1)/32 = 2^24 + 1`
is not a `float32` value; it rounds to `2^24`, and the emitted extent is
`16777217` while `ceil(N/32) = floor((N - 1)/32) + 1 = 16777218`. -/
theorem loop_bounds_counterexample :
    (1 : Int) ≤ 536870945 ∧ ((536870945 : Int) + -1) / 32 = 16777217 ∧
    float32 16777217 = 16777216 ∧
    outerExtent 536870945 = 16777217 ∧
    ⌈((536870945 : Int) : ℚ) / 32⌉ = 16777218 ∧
    ((536870945 : Int) - 1) / 32 + 1 = 16777218 := by
  refine ⟨by decide, by decide, ?_, ?_, ?_, by decide⟩
  · norm_num [float32, f32Shift, roundNearestEven]
  · norm_num [outerExtent, sub32, add32, div32, int32_of_f32, floor_f32, float32, f32Shift,
      roundNearestEven, int32, Int.fdiv]
  · rw [ceil_div_32]; decide

/-- Inside the loop bounds (for `N` up to the declared 1000) the references of
the four stores are the row-major references of the reconstructed indices. -/
theorem stmt_refs (N c1 c3 c5 c7 c9 : Int) (h1 : 0 ≤ N) (h2 : N ≤ 1000)
    (hb : inBounds N c1 c3 c5 c7) (h9 : 0 ≤ c9 ∧ c9 < 0 + redExtent N) :
    (stmt_C_init c1 c3 c5 c7).dst = ⟨.b_C, (32 * c1 + c5) * 1000 + (32 * c3 + c7)⟩ ∧
    (stmt_E_init c1 c3 c5 c7).dst = ⟨.b_E, (32 * c1 + c5) * 1000 + (32 * c3 + c7)⟩ ∧
    (stmt_c_C c1 c3 c5 c7 c9).dst = ⟨.b_C, (32 * c1 + c5) * 1000 + (32 * c3 + c7)⟩ ∧
    (stmt_c_C c1 c3 c5 c7 c9).rhs =
      .mac ⟨.b_C, (32 * c1 + c5) * 1000 + (32 * c3 + c7)⟩
           ⟨.b_A, (32 * c1 + c5) * 1000 + c9⟩ ⟨.b_B, c9 * 1000 + (32 * c3 + c7)⟩ ∧
    (stmt_c_E c1 c3 c5 c7 c9).dst = ⟨.b_E, (32 * c1 + c5) * 1000 + (32 * c3 + c7)⟩ ∧
    (stmt_c_E c1 c3 c5 c7 c9).rhs =
      .mac ⟨.b_E, (32 * c1 + c5) * 1000 + (32 * c3 + c7)⟩
           ⟨.b_A, (32 * c1 + c5) * 1000 + c9⟩ ⟨.b_D, c9 * 1000 + (32 * c3 + c7)⟩ := by
  have hp := point_offset h1 h2 hb
  rw [redExtent_eq h1 (by omega)] at h9
  rw [inBounds_iff h1 (by omega)] at hb
  have hA : offset c9 (tiled c1 c5) = (32 * c1 + c5) * 1000 + c9 := by
    rw [tiled_eq (by omega) (by omega) (by omega), offset_eq (by omega) (by omega) (by omega)]
  have hB : offset (tiled c3 c7) c9 = c9 * 1000 + (32 * c3 + c7) := by
    rw [tiled_eq (by omega) (by omega) (by omega), offset_eq (by omega) (by omega) (by omega)]
  simp only [stmt_C_init, stmt_E_init, stmt_c_C, stmt_c_E, hp, hA, hB, and_self]

end Tutorial04B

namespace Tutorial04B

theorem generated_nest_eq (N : Int) :
    generated_nest N = forLoop 0 (outerExtent N) (loop_c3 N) := rfl

theorem body_comp_buf {N c1 c3 c5 c7 : Int} {x : Inst} (h : x ∈ body N c1 c3 c5 c7) :
    ((x.comp = .C_init ∨ x.comp = .c_C) → x.dst.buf = .b_C) ∧
    ((x.comp = .E_init ∨ x.comp = .c_E) → x.dst.buf = .b_E) := by
  rcases mem_body.1 h with h | h | ⟨c, _, h⟩ | ⟨c, _, h⟩ <;> subst h <;>
    simp [stmt_C_init, stmt_E_init, stmt_c_C, stmt_c_E]

/-- C4: two stores of the generated statement at the same point
`(c1, c3, c5, c7)` write the same offset, whatever their `c9`; the stores of
`C_init` and `c_C` write it in `b_C`, those of `E_init` and `c_E` in `b_E`. So
the offset written by `c_C` (`c_E`) is the same for every `c9` and is the one
`C_init` (`E_init`) writes at that point. -/
theorem store_offset_independent_of_c9 (N : Int) (s t : Inst)
    (hs : s ∈ generated_nest N) (ht : t ∈ generated_nest N)
    (hp : s.c1 = t.c1 ∧ s.c3 = t.c3 ∧ s.c5 = t.c5 ∧ s.c7 = t.c7) :
    s.dst.off = t.dst.off ∧
    s.dst.off = offset (tiled s.c3 s.c7) (tiled s.c1 s.c5) ∧
    ((s.comp = .C_init ∨ s.comp = .c_C) → (t.comp = .C_init ∨ t.comp = .c_C) →
      s.dst = t.dst ∧ s.dst.buf = .b_C) ∧
    ((s.comp = .E_init ∨ s.comp = .c_E) → (t.comp = .E_init ∨ t.comp = .c_E) →
      s.dst = t.dst ∧ s.dst.buf = .b_E) := by
  obtain ⟨a1, a3, a5, a7, _, ha⟩ := mem_generated_nest.1 hs
  obtain ⟨b1, b3, b5, b7, _, hb⟩ := mem_generated_nest.1 ht
  obtain ⟨p1, p3, p5, p7⟩ := body_point ha
  obtain ⟨q1, q3, q5, q7⟩ := body_point hb
  obtain ⟨r1, r3, r5, r7⟩ := hp
  have hso := body_dst_off ha
  have hto := body_dst_off hb
  have e : s.dst.off = t.dst.off := by
    rw [hso, hto, ← p1, ← p3, ← p5, ← p7, ← q1, ← q3, ← q5, ← q7, r1, r3, r5, r7]
  have hsb := body_comp_buf ha
  have htb := body_comp_buf hb
  refine ⟨e, ?_, ?_, ?_⟩
  · rw [hso, p1, p3, p5, p7]
  · intro h h'
    refine ⟨?_, hsb.1 h⟩
    cases hd : s.dst with
    | mk b o =>
      cases hd' : t.dst with
      | mk b' o' =>
        have := hsb.1 h; have := htb.1 h'
        simp_all
  · intro h h'
    refine ⟨?_, hsb.2 h⟩
    cases hd : s.dst with
    | mk b o =>
      cases hd' : t.dst with
      | mk b' o' =>
        have := hsb.2 h; have := htb.2 h'
        simp_all

theorem inBounds_1000 {c1 c3 c5 c7 : Int}
    (h : (0 ≤ c1 ∧ 0 ≤ c5 ∧ c5 < 32 ∧ 32 * c1 + c5 < 1000) ∧
      (0 ≤ c3 ∧ 0 ≤ c7 ∧ c7 < 32 ∧ 32 * c3 + c7 < 1000)) :
    inBounds 1000 c1 c3 c5 c7 :=
  (inBounds_iff (by decide) (by decide)).2 h

theorem redExtent_1000 : redExtent 1000 = 1000 := redExtent_eq (by decide) (by decide)

/-- C4, witness: the update of `c_C` at `c9 = 999` and the initialisation of
`C_init`, both at the point `(31, 31, 7, 7)` of the statement for `N = 1000`. -/
theorem store_offset_independent_of_c9_witness :
    (stmt_c_C 31 31 7 7 999).dst.off = (stmt_C_init 31 31 7 7).dst.off ∧
    (stmt_c_C 31 31 7 7 999).dst.off = offset (tiled 31 7) (tiled 31 7) ∧
    ((stmt_c_C 31 31 7 7 999).comp = .C_init ∨ (stmt_c_C 31 31 7 7 999).comp = .c_C →
      (stmt_C_init 31 31 7 7).comp = .C_init ∨ (stmt_C_init 31 31 7 7).comp = .c_C →
      (stmt_c_C 31 31 7 7 999).dst = (stmt_C_init 31 31 7 7).dst ∧
        (stmt_c_C 31 31 7 7 999).dst.buf = .b_C) ∧
    ((stmt_c_C 31 31 7 7 999).comp = .E_init ∨ (stmt_c_C 31 31 7 7 999).comp = .c_E →
      (stmt_C_init 31 31 7 7).comp = .E_init ∨ (stmt_C_init 31 31 7 7).comp = .c_E →
      (stmt_c_C 31 31 7 7 999).dst = (stmt_C_init 31 31 7 7).dst ∧
        (stmt_c_C 31 31 7 7 999).dst.buf = .b_E) :=
  store_offset_independent_of_c9 1000 (stmt_c_C 31 31 7 7 999) (stmt_C_init 31 31 7 7)
    (mem_generated_nest.2 ⟨31, 31, 7, 7, inBounds_1000 (by decide),
      mem_body.2 (Or.inr (Or.inr (Or.inl ⟨999, by rw [redExtent_1000]; decide, rfl⟩)))⟩)
    (mem_generated_nest.2 ⟨31, 31, 7, 7, inBounds_1000 (by decide), mem_body.2 (Or.inl rfl)⟩)
    ⟨rfl, rfl, rfl, rfl⟩

/-- For `0 ≤ N ≤ 1000` a store of the statement writes the unwrapped row-major
offset of its point, and its point satisfies the tiled bounds. -/
theorem store_point_facts {N : Int} (h1 : 0 ≤ N) (h2 : N ≤ 1000) {s : Inst}
    (hs : s ∈ generated_nest N) :
    s.dst.off = (32 * s.c1 + s.c5) * 1000 + (32 * s.c3 + s.c7) ∧
    (0 ≤ s.c1 ∧ 0 ≤ s.c5 ∧ s.c5 < 32 ∧ 32 * s.c1 + s.c5 < N) ∧
    (0 ≤ s.c3 ∧ 0 ≤ s.c7 ∧ s.c7 < 32 ∧ 32 * s.c3 + s.c7 < N) := by
  obtain ⟨a1, a3, a5, a7, hba, ha⟩ := mem_generated_nest.1 hs
  obtain ⟨p1, p3, p5, p7⟩ := body_point ha
  have hso := body_dst_off ha
  rw [point_offset h1 h2 hba] at hso
  rw [inBounds_iff h1 (by omega)] at hba
  subst p1 p3 p5 p7
  exact ⟨hso, hba.1, hba.2⟩

/-- The row-major offset determines the point, for `N` up to the row length. -/
theorem point_of_offset {N a1 a3 a5 a7 b1 b3 b5 b7 : Int} (h2 : N ≤ 1000)
    (ha : 0 ≤ a1 ∧ 0 ≤ a5 ∧ a5 < 32 ∧ 32 * a1 + a5 < N)
    (ha' : 0 ≤ a3 ∧ 0 ≤ a7 ∧ a7 < 32 ∧ 32 * a3 + a7 < N)
    (hb : 0 ≤ b1 ∧ 0 ≤ b5 ∧ b5 < 32 ∧ 32 * b1 + b5 < N)
    (hb' : 0 ≤ b3 ∧ 0 ≤ b7 ∧ b7 < 32 ∧ 32 * b3 + b7 < N)
    (h : (32 * a1 + a5) * 1000 + (32 * a3 + a7) = (32 * b1 + b5) * 1000 + (32 * b3 + b7)) :
    a1 = b1 ∧ a3 = b3 ∧ a5 = b5 ∧ a7 = b7 := by
  have hi : 32 * a1 + a5 = 32 * b1 + b5 := by omega
  have hj : 32 * a3 + a7 = 32 * b3 + b7 := by omega
  omega

/-- C9: for `0 ≤ N ≤ 1000` every store of the generated statement writes inside
its buffer, at the unwrapped offset `(32*c1 + c5)*1000 + (32*c3 + c7)`; two
stores with the same offset are at the same point `(c1, c3, c5, c7)`, so stores
of distinct iterations of the parallel loop `c1` write distinct offsets. -/
theorem store_offsets_injective (N : Int) (h1 : 0 ≤ N) (h2 : N ≤ 1000) (s t : Inst)
    (hs : s ∈ generated_nest N) (ht : t ∈ generated_nest N) :
    (0 ≤ s.dst.off ∧ s.dst.off < 1000000) ∧
    s.dst.off = (32 * s.c1 + s.c5) * 1000 + (32 * s.c3 + s.c7) ∧
    (s.dst.off = t.dst.off → s.c1 = t.c1 ∧ s.c3 = t.c3 ∧ s.c5 = t.c5 ∧ s.c7 = t.c7) ∧
    (s.c1 ≠ t.c1 → s.dst.off ≠ t.dst.off) := by
  obtain ⟨hso, hs1, hs3⟩ := store_point_facts h1 h2 hs
  obtain ⟨hto, ht1, ht3⟩ := store_point_facts h1 h2 ht
  have key : s.dst.off = t.dst.off →
      s.c1 = t.c1 ∧ s.c3 = t.c3 ∧ s.c5 = t.c5 ∧ s.c7 = t.c7 := by
    intro h
    rw [hso, hto] at h
    exact point_of_offset h2 hs1 hs3 ht1 ht3 h
  refine ⟨by omega, hso, key, ?_⟩
  intro hne h
  exact hne (key h).1

/-- C9, witness: the first and the last point of the statement for `N = 1000`. -/
theorem store_offsets_injective_witness :
    (0 ≤ (stmt_C_init 0 0 0 0).dst.off ∧ (stmt_C_init 0 0 0 0).dst.off < 1000000) ∧
    (stmt_C_init 0 0 0 0).dst.off = (32 * 0 + 0) * 1000 + (32 * 0 + 0) ∧
    ((stmt_C_init 0 0 0 0).dst.off = (stmt_E_init 31 31 7 7).dst.off →
      (0 : Int) = 31 ∧ (0 : Int) = 31 ∧ (0 : Int) = 7 ∧ (0 : Int) = 7) ∧
    ((0 : Int) ≠ 31 → (stmt_C_init 0 0 0 0).dst.off ≠ (stmt_E_init 31 31 7 7).dst.off) :=
  store_offsets_injective 1000 (by decide) (by decide) (stmt_C_init 0 0 0 0)
    (stmt_E_init 31 31 7 7)
    (mem_generated_nest.2 ⟨0, 0, 0, 0, inBounds_1000 (by decide), mem_body.2 (Or.inl rfl)⟩)
    (mem_generated_nest.2 ⟨31, 31, 7, 7, inBounds_1000 (by decide),
      mem_body.2 (Or.inr (Or.inl rfl))⟩)

end Tutorial04B

namespace Tutorial04B

/-! ## Order of the stores -/

theorem flatMap_single {α β : Type} (g : α → β) (l : List α) :
    (l.flatMap fun t => [g t]) = l.map g := by
  induction l with
  | nil => rfl
  | cons a l ih => simp [List.flatMap_cons, ih]

theorem forLoop_single (n : Int) (g : Int → Inst) :
    forLoop 0 n (fun c9 => [g c9]) = (List.range n.toNat).map fun k : Nat => g (k : Int) := by
  unfold forLoop
  rw [flatMap_single (fun t : Nat => g (0 + (t : Int)))]
  apply List.map_congr_left
  intro t _
  rw [zero_add]

theorem body_eq (N c1 c3 c5 c7 : Int) :
    body N c1 c3 c5 c7 =
      [stmt_C_init c1 c3 c5 c7, stmt_E_init c1 c3 c5 c7]
        ++ (List.range (redExtent N).toNat).map (fun k : Nat => stmt_c_C c1 c3 c5 c7 (k : Int))
        ++ (List.range (redExtent N).toNat).map (fun k : Nat => stmt_c_E c1 c3 c5 c7 (k : Int)) := by
  unfold body
  rw [forLoop_single, forLoop_single]

theorem loop_c7_point {N c1 c3 c5 : Int} {x : Inst} (h : x ∈ loop_c7 N c1 c3 c5) :
    x.c1 = c1 ∧ x.c3 = c3 ∧ x.c5 = c5 := by
  obtain ⟨c, _, _, hx⟩ := mem_forLoop.1 h
  obtain ⟨a, b, d, _⟩ := body_point hx
  exact ⟨a, b, d⟩

theorem loop_c5_point {N c1 c3 : Int} {x : Inst} (h : x ∈ loop_c5 N c1 c3) :
    x.c1 = c1 ∧ x.c3 = c3 := by
  obtain ⟨c, _, _, hx⟩ := mem_forLoop.1 h
  obtain ⟨a, b, _⟩ := loop_c7_point hx
  exact ⟨a, b⟩

theorem loop_c3_point {N c1 : Int} {x : Inst} (h : x ∈ loop_c3 N c1) : x.c1 = c1 := by
  obtain ⟨c, _, _, hx⟩ := mem_forLoop.1 h
  exact (loop_c5_point hx).1

/-- A loop is the stores before an iteration, the iteration, and the stores
after it; the stores before and after belong to other iterations. -/
theorem forLoop_around {extent c : Int} (f : Int → List Inst) (h1 : 0 ≤ c)
    (h2 : c < 0 + extent) :
    ∃ pre post, forLoop 0 extent f = pre ++ f c ++ post ∧
      ∀ x ∈ pre ++ post, ∃ d, d ≠ c ∧ x ∈ f d := by
  refine ⟨forLoop 0 (c - 0) f, forLoop (c + 1) (0 + extent - (c + 1)) f,
    forLoop_split f h1 h2, ?_⟩
  intro x hx
  rcases List.mem_append.1 hx with h | h
  · obtain ⟨d, a, b, hd⟩ := mem_forLoop.1 h
    exact ⟨d, by omega, hd⟩
  · obtain ⟨d, a, b, hd⟩ := mem_forLoop.1 h
    exact ⟨d, by omega, hd⟩

/-- The statement is the stores of other points, then the body of the point,
then stores of other points. -/
theorem generated_nest_around {N c1 c3 c5 c7 : Int} (hb : inBounds N c1 c3 c5 c7) :
    ∃ pre post, generated_nest N = pre ++ body N c1 c3 c5 c7 ++ post ∧
      ∀ x ∈ pre ++ post, ¬ (x.c1 = c1 ∧ x.c3 = c3 ∧ x.c5 = c5 ∧ x.c7 = c7) := by
  obtain ⟨⟨a1, a2⟩, ⟨b1, b2⟩, ⟨d1, d2⟩, ⟨e1, e2⟩⟩ := hb
  obtain ⟨p1, q1, h1, n1⟩ := forLoop_around (loop_c3 N) a1 a2
  obtain ⟨p3, q3, h3, n3⟩ := forLoop_around (fun c3 => loop_c5 N c1 c3) b1 b2
  obtain ⟨p5, q5, h5, n5⟩ := forLoop_around (fun c5 => loop_c7 N c1 c3 c5) d1 d2
  obtain ⟨p7, q7, h7, n7⟩ := forLoop_around (fun c7 => body N c1 c3 c5 c7) e1 e2
  refine ⟨p1 ++ p3 ++ p5 ++ p7, q7 ++ q5 ++ q3 ++ q1, ?_, ?_⟩
  · rw [generated_nest_eq, h1]
    show p1 ++ loop_c3 N c1 ++ q1 = _
    unfold loop_c3
    rw [h3]
    show p1 ++ (p3 ++ loop_c5 N c1 c3 ++ q3) ++ q1 = _
    unfold loop_c5
    rw [h5]
    show p1 ++ (p3 ++ (p5 ++ loop_c7 N c1 c3 c5 ++ q5) ++ q3) ++ q1 = _
    unfold loop_c7
    rw [h7]
    simp only [List.append_assoc]
  · intro x hx ⟨x1, x3, x5, x7⟩
    have hx' : (x ∈ p1 ++ q1 ∨ x ∈ p3 ++ q3) ∨ (x ∈ p5 ++ q5 ∨ x ∈ p7 ++ q7) := by
      simp only [List.mem_append] at hx ⊢
      tauto
    rcases hx' with (h | h) | (h | h)
    · obtain ⟨d, hd, hm⟩ := n1 x h
      exact hd ((loop_c3_point hm).symm.trans x1)
    · obtain ⟨d, hd, hm⟩ := n3 x h
      exact hd ((loop_c5_point hm).2.symm.trans x3)
    · obtain ⟨d, hd, hm⟩ := n5 x h
      exact hd ((loop_c7_point hm).2.2.symm.trans x5)
    · obtain ⟨d, hd, hm⟩ := n7 x h
      exact hd ((body_point hm).2.2.2.symm.trans x7)

end Tutorial04B

namespace Tutorial04B

/-- The stores of one point, in the order of the statement: the two
initialisations, the `N` updates of `c_C`, the `N` updates of `c_E`. -/
theorem body_eq_block {N : Int} (h1 : 0 ≤ N) (h2 : N < 2147483648) (c1 c3 c5 c7 : Int) :
    body N c1 c3 c5 c7 =
      [stmt_C_init c1 c3 c5 c7, stmt_E_init c1 c3 c5 c7]
        ++ (List.range N.toNat).map (fun k : Nat => stmt_c_C c1 c3 c5 c7 (k : Int))
        ++ (List.range N.toNat).map (fun k : Nat => stmt_c_E c1 c3 c5 c7 (k : Int)) := by
  rw [body_eq, redExtent_eq h1 h2]

theorem count_init_body (N c1 c3 c5 c7 : Int) :
    (body N c1 c3 c5 c7).count (stmt_C_init c1 c3 c5 c7) = 1 ∧
    (body N c1 c3 c5 c7).count (stmt_E_init c1 c3 c5 c7) = 1 := by
  rw [body_eq]
  have hC : ∀ n : Nat, stmt_C_init c1 c3 c5 c7 ∉
      (List.range n).map (fun k : Nat => stmt_c_C c1 c3 c5 c7 (k : Int)) := by
    intro n h
    obtain ⟨k, _, hk⟩ := List.mem_map.1 h
    have := congrArg Inst.comp hk
    simp [stmt_C_init, stmt_c_C] at this
  have hC' : ∀ n : Nat, stmt_C_init c1 c3 c5 c7 ∉
      (List.range n).map (fun k : Nat => stmt_c_E c1 c3 c5 c7 (k : Int)) := by
    intro n h
    obtain ⟨k, _, hk⟩ := List.mem_map.1 h
    have := congrArg Inst.comp hk
    simp [stmt_C_init, stmt_c_E] at this
  have hE : ∀ n : Nat, stmt_E_init c1 c3 c5 c7 ∉
      (List.range n).map (fun k : Nat => stmt_c_C c1 c3 c5 c7 (k : Int)) := by
    intro n h
    obtain ⟨k, _, hk⟩ := List.mem_map.1 h
    have := congrArg Inst.comp hk
    simp [stmt_E_init, stmt_c_C] at this
  have hE' : ∀ n : Nat, stmt_E_init c1 c3 c5 c7 ∉
      (List.range n).map (fun k : Nat => stmt_c_E c1 c3 c5 c7 (k : Int)) := by
    intro n h
    obtain ⟨k, _, hk⟩ := List.mem_map.1 h
    have := congrArg Inst.comp hk
    simp [stmt_E_init, stmt_c_E] at this
  have hne : stmt_C_init c1 c3 c5 c7 ≠ stmt_E_init c1 c3 c5 c7 := by
    intro h
    have := congrArg Inst.comp h
    simp [stmt_C_init, stmt_E_init] at this
  constructor
  · rw [List.count_append, List.count_append, List.count_eq_zero_of_not_mem (hC _),
      List.count_eq_zero_of_not_mem (hC' _)]
    simp [List.count_cons, hne, hne.symm]
  · rw [List.count_append, List.count_append, List.count_eq_zero_of_not_mem (hE _),
      List.count_eq_zero_of_not_mem (hE' _)]
    simp [List.count_cons, hne, hne.symm]

end Tutorial04B

namespace Tutorial04B

/-! ## Execution of the generated statement -/

theorem run_eq_foldl (l : List Inst) (hl : ∀ x ∈ l, x.valid) (m : Mem) :
    run l m = some (l.foldl exec m) := by
  induction l generalizing m with
  | nil => rfl
  | cons a l ih =>
    have ha : a.valid := hl a (List.mem_cons_self _ _)
    have hl' : ∀ x ∈ l, x.valid := fun x hx => hl x (List.mem_cons_of_mem _ hx)
    simp only [run, step, if_pos ha, List.foldl_cons]
    exact ih hl' _

/-- For `0 ≤ N ≤ 1000` every access of every store is inside its buffer. -/
theorem generated_nest_valid {N : Int} (h1 : 0 ≤ N) (h2 : N ≤ 1000) :
    ∀ x ∈ generated_nest N, x.valid := by
  intro x hx
  obtain ⟨c1, c3, c5, c7, hb, hm⟩ := mem_generated_nest.1 hx
  have hb' := (inBounds_iff h1 (by omega)).1 hb
  have hv : validOff ((32 * c1 + c5) * 1000 + (32 * c3 + c7)) := by
    unfold validOff bufferSize; omega
  rcases mem_body.1 hm with h | h | ⟨c9, h9, h⟩ | ⟨c9, h9, h⟩
  · subst h
    have e := (stmt_refs N c1 c3 c5 c7 0 h1 h2 hb (by
      rw [redExtent_eq h1 (by omega)]; omega)).1
    unfold Inst.valid
    rw [e]
    exact ⟨hv, trivial⟩
  · subst h
    have e := (stmt_refs N c1 c3 c5 c7 0 h1 h2 hb (by
      rw [redExtent_eq h1 (by omega)]; omega)).2.1
    unfold Inst.valid
    rw [e]
    exact ⟨hv, trivial⟩
  · subst h
    obtain ⟨_, _, e, e', _, _⟩ := stmt_refs N c1 c3 c5 c7 c9 h1 h2 hb h9
    rw [redExtent_eq h1 (by omega)] at h9
    unfold Inst.valid
    rw [e, e']
    refine ⟨hv, hv, ?_, ?_⟩ <;> (unfold validOff bufferSize; dsimp only; omega)
  · subst h
    obtain ⟨_, _, _, _, e, e'⟩ := stmt_refs N c1 c3 c5 c7 c9 h1 h2 hb h9
    rw [redExtent_eq h1 (by omega)] at h9
    unfold Inst.valid
    rw [e, e']
    refine ⟨hv, hv, ?_, ?_⟩ <;> (unfold validOff bufferSize; dsimp only; omega)

/-- Every store of the statement writes `b_C` or `b_E`. -/
theorem body_dst_buf {N c1 c3 c5 c7 : Int} {x : Inst} (h : x ∈ body N c1 c3 c5 c7) :
    x.dst.buf = .b_C ∨ x.dst.buf = .b_E := by
  rcases mem_body.1 h with h | h | ⟨c, _, h⟩ | ⟨c, _, h⟩ <;> subst h <;>
    simp [stmt_C_init, stmt_E_init, stmt_c_C, stmt_c_E]

theorem foldl_exec_invariant (R : Mem → Prop) (Q : Inst → Prop)
    (hstep : ∀ m x, Q x → R m → R (exec m x)) :
    ∀ (l : List Inst), (∀ x ∈ l, Q x) → ∀ m, R m → R (l.foldl exec m) := by
  intro l
  induction l with
  | nil => intro _ m hm; exact hm
  | cons a l ih =>
    intro hl m hm
    rw [List.foldl_cons]
    exact ih (fun x hx => hl x (List.mem_cons_of_mem _ hx)) _
      (hstep m a (hl a (List.mem_cons_self _ _)) hm)

theorem write_other_buf (m : Mem) (r : Ref) (v : Nat) (b : Buffer) (o : Int)
    (h : b ≠ r.buf) : write m r v b o = m b o := by
  unfold write
  rw [if_neg]
  exact fun hh => h hh.1

theorem write_other_off (m : Mem) (r : Ref) (v : Nat) (b : Buffer) (o : Int)
    (h : o ≠ r.off) : write m r v b o = m b o := by
  unfold write
  rw [if_neg]
  exact fun hh => h hh.2

theorem write_same (m : Mem) (b : Buffer) (o : Int) (v : Nat) : write m ⟨b, o⟩ v b o = v := by
  unfold write
  rw [if_pos ⟨rfl, rfl⟩]

theorem write_write (m : Mem) (r : Ref) (v w : Nat) : write (write m r v) r w = write m r w := by
  funext b o
  unfold write
  split_ifs <;> rfl

end Tutorial04B

namespace Tutorial04B

theorem uint8_acc (a s p : Nat) :
    add8 ((a + s) % 256) (uint8 p) = (a + (s + p)) % 256 := by
  unfold add8 uint8
  omega

/-- A `c9` loop of multiply-accumulate stores into one location leaves the sum,
modulo 256, of the initial content and the products. -/
theorem mac_loop (r : Ref) (X Y : Buffer) (ox oy : Nat → Int) (hX : X ≠ r.buf)
    (hY : Y ≠ r.buf) (mk : Nat → Inst) (n : Nat)
    (hd : ∀ k, k < n → (mk k).dst = r)
    (hr : ∀ k, k < n → (mk k).rhs = .mac r ⟨X, ox k⟩ ⟨Y, oy k⟩)
    (m : Mem) (hm : m r.buf r.off < 256) :
    ((List.range n).map mk).foldl exec m =
      write m r ((m r.buf r.off + ∑ k ∈ Finset.range n, m X (ox k) * m Y (oy k)) % 256) := by
  induction n with
  | zero =>
    funext b o
    simp only [List.range_zero, List.map_nil, List.foldl_nil, Finset.range_zero,
      Finset.sum_empty, Nat.add_zero]
    unfold write
    split_ifs with h
    · obtain ⟨rfl, rfl⟩ := h
      exact (Nat.mod_eq_of_lt hm).symm
    · rfl
  | succ n ih =>
    have ih' := ih (fun k hk => hd k (by omega)) (fun k hk => hr k (by omega))
    rw [List.range_succ, List.map_append, List.foldl_append, ih']
    simp only [List.map_cons, List.map_nil, List.foldl_cons, List.foldl_nil]
    unfold exec
    rw [hd n (by omega), hr n (by omega)]
    simp only [evalRhs]
    rw [write_other_buf _ _ _ X _ hX, write_other_buf _ _ _ Y _ hY, write_write,
      Finset.sum_range_succ]
    cases r with
    | mk rb ro =>
      rw [write_same]
      have hv := uint8_acc (m rb ro) (∑ k ∈ Finset.range n, m X (ox k) * m Y (oy k))
        (m X (ox n) * m Y (oy n))
      unfold mul8
      rw [hv]

end Tutorial04B

namespace Tutorial04B

/-- Effect of the body of the `c7` loop at a point inside the bounds: the two
locations of the point receive the two dot products modulo 256, nothing else
changes. -/
theorem body_effect {N c1 c3 c5 c7 : Int} (h1 : 0 ≤ N) (h2 : N ≤ 1000)
    (hb : inBounds N c1 c3 c5 c7) (m : Mem) :
    (body N c1 c3 c5 c7).foldl exec m =
      write (write m ⟨.b_C, (32 * c1 + c5) * 1000 + (32 * c3 + c7)⟩
          (dot (matrixOf (m .b_A)) (matrixOf (m .b_B)) (32 * c1 + c5) (32 * c3 + c7) N.toNat
            % 256))
        ⟨.b_E, (32 * c1 + c5) * 1000 + (32 * c3 + c7)⟩
        (dot (matrixOf (m .b_A)) (matrixOf (m .b_D)) (32 * c1 + c5) (32 * c3 + c7) N.toNat
          % 256) := by
  have hred : redExtent N = N := redExtent_eq h1 (by omega)
  have acc : ∀ k : Nat, k < N.toNat →
      _ := fun k hk => stmt_refs N c1 c3 c5 c7 (k : Int) h1 h2 hb
        (by rw [hred]; omega)
  obtain ⟨eCi, eEi, -⟩ := stmt_refs N c1 c3 c5 c7 0 h1 h2 hb
    (by rw [hred]; have := (inBounds_iff h1 (by omega)).1 hb; omega)
  rw [body_eq_block h1 (by omega), List.foldl_append, List.foldl_append]
  simp only [List.foldl_cons, List.foldl_nil]
  have hCi : exec m (stmt_C_init c1 c3 c5 c7)
      = write m ⟨.b_C, (32 * c1 + c5) * 1000 + (32 * c3 + c7)⟩ 0 := by
    unfold exec; rw [eCi]; rfl
  rw [hCi]
  have hEi : ∀ m1 : Mem, exec m1 (stmt_E_init c1 c3 c5 c7)
      = write m1 ⟨.b_E, (32 * c1 + c5) * 1000 + (32 * c3 + c7)⟩ 0 := by
    intro m1; unfold exec; rw [eEi]; rfl
  rw [hEi]
  rw [mac_loop ⟨.b_C, (32 * c1 + c5) * 1000 + (32 * c3 + c7)⟩ .b_A .b_B
    (fun k => (32 * c1 + c5) * 1000 + (k : Int)) (fun k => (k : Int) * 1000 + (32 * c3 + c7))
    (by simp) (by simp) (fun k => stmt_c_C c1 c3 c5 c7 (k : Int)) N.toNat
    (fun k hk => (acc k hk).2.2.1) (fun k hk => (acc k hk).2.2.2.1) _
    (by simp [write])]
  rw [mac_loop ⟨.b_E, (32 * c1 + c5) * 1000 + (32 * c3 + c7)⟩ .b_A .b_D
    (fun k => (32 * c1 + c5) * 1000 + (k : Int)) (fun k => (k : Int) * 1000 + (32 * c3 + c7))
    (by simp) (by simp) (fun k => stmt_c_E c1 c3 c5 c7 (k : Int)) N.toNat
    (fun k hk => (acc k hk).2.2.2.2.1) (fun k hk => (acc k hk).2.2.2.2.2) _
    (by simp [write])]
  funext b o
  simp only [write, dot, matrixOf]
  split_ifs <;> simp_all

end Tutorial04B

namespace Tutorial04B

/-- A store of the statement leaves the input buffers as they are. -/
theorem exec_inputs {N : Int} {x : Inst} (hx : x ∈ generated_nest N) (m : Mem) (o : Int) :
    exec m x .b_A o = m .b_A o ∧ exec m x .b_B o = m .b_B o ∧ exec m x .b_D o = m .b_D o := by
  obtain ⟨c1, c3, c5, c7, _, hm⟩ := mem_generated_nest.1 hx
  unfold exec
  rcases body_dst_buf hm with h | h <;>
    refine ⟨write_other_buf _ _ _ _ _ ?_, write_other_buf _ _ _ _ _ ?_,
      write_other_buf _ _ _ _ _ ?_⟩ <;> rw [h] <;> decide

/-- Contents of the output buffers after the loop nest, for `0 ≤ N ≤ 1000`. -/
theorem generated_nest_result {N : Int} (h1 : 0 ≤ N) (h2 : N ≤ 1000) (m : Mem) (i j : Int)
    (hi : 0 ≤ i ∧ i < N) (hj : 0 ≤ j ∧ j < N) :
    (generated_nest N).foldl exec m .b_C (i * 1000 + j)
        = dot (matrixOf (m .b_A)) (matrixOf (m .b_B)) i j N.toNat % 256 ∧
    (generated_nest N).foldl exec m .b_E (i * 1000 + j)
        = dot (matrixOf (m .b_A)) (matrixOf (m .b_D)) i j N.toNat % 256 ∧
    (∀ o, (generated_nest N).foldl exec m .b_A o = m .b_A o ∧
      (generated_nest N).foldl exec m .b_B o = m .b_B o ∧
      (generated_nest N).foldl exec m .b_D o = m .b_D o) := by
  have hb : inBounds N (i / 32) (j / 32) (i % 32) (j % 32) :=
    (inBounds_iff h1 (by omega)).2 (by omega)
  have ei : 32 * (i / 32) + i % 32 = i := by omega
  have ej : 32 * (j / 32) + j % 32 = j := by omega
  obtain ⟨pre, post, he, hn⟩ := generated_nest_around hb
  have hsub : ∀ x, x ∈ pre ++ post → x ∈ generated_nest N := by
    intro x hx
    rw [he]
    simp only [List.mem_append] at hx ⊢
    tauto
  have htgt : stmt_C_init (i / 32) (j / 32) (i % 32) (j % 32) ∈ generated_nest N :=
    mem_generated_nest.2 ⟨_, _, _, _, hb, mem_body.2 (Or.inl rfl)⟩
  have hoff : ∀ x, x ∈ pre ++ post → x.dst.off ≠ i * 1000 + j := by
    intro x hx h
    obtain ⟨e, hx1, hx3⟩ := store_point_facts h1 h2 (hsub x hx)
    rw [e] at h
    have hb' := (inBounds_iff h1 (by omega)).1 hb
    exact hn x hx (point_of_offset h2 hx1 hx3 hb'.1 hb'.2 (by rw [h, ei, ej]))
  let Inv : Mem → Prop := fun m1 =>
    ∀ o, m1 .b_A o = m .b_A o ∧ m1 .b_B o = m .b_B o ∧ m1 .b_D o = m .b_D o
  let P : Mem → Prop := fun m1 =>
    m1 .b_C (i * 1000 + j) = dot (matrixOf (m .b_A)) (matrixOf (m .b_B)) i j N.toNat % 256 ∧
    m1 .b_E (i * 1000 + j) = dot (matrixOf (m .b_A)) (matrixOf (m .b_D)) i j N.toNat % 256
  have stepInv : ∀ m1 x, x ∈ generated_nest N → Inv m1 → Inv (exec m1 x) := by
    intro m1 x hx hI o
    obtain ⟨a, b, d⟩ := exec_inputs hx m1 o
    obtain ⟨a', b', d'⟩ := hI o
    exact ⟨a.trans a', b.trans b', d.trans d'⟩
  have stepP : ∀ m1 x, x ∈ pre ++ post → (Inv m1 ∧ P m1) → (Inv (exec m1 x) ∧ P (exec m1 x)) := by
    intro m1 x hx ⟨hI, hP⟩
    refine ⟨stepInv m1 x (hsub x hx) hI, ?_⟩
    have ho := hoff x hx
    unfold exec
    exact ⟨(write_other_off _ _ _ _ _ ho.symm).trans hP.1,
      (write_other_off _ _ _ _ _ ho.symm).trans hP.2⟩
  have hpre : Inv (pre.foldl exec m) :=
    foldl_exec_invariant Inv (fun x => x ∈ generated_nest N) stepInv pre
      (fun x hx => hsub x (List.mem_append_left _ hx)) m
      (fun o => ⟨rfl, rfl, rfl⟩)
  have hA : matrixOf (pre.foldl exec m .b_A) = matrixOf (m .b_A) := by
    funext a b; exact (hpre _).1
  have hB : matrixOf (pre.foldl exec m .b_B) = matrixOf (m .b_B) := by
    funext a b; exact (hpre _).2.1
  have hD : matrixOf (pre.foldl exec m .b_D) = matrixOf (m .b_D) := by
    funext a b; exact (hpre _).2.2
  have hbody : Inv ((body N (i / 32) (j / 32) (i % 32) (j % 32)).foldl exec (pre.foldl exec m))
      ∧ P ((body N (i / 32) (j / 32) (i % 32) (j % 32)).foldl exec (pre.foldl exec m)) := by
    constructor
    · exact foldl_exec_invariant Inv (fun x => x ∈ generated_nest N) stepInv _
        (fun x hx => mem_generated_nest.2 ⟨_, _, _, _, hb, hx⟩) _ hpre
    · rw [body_effect h1 h2 hb, hA, hB, hD, ei, ej]
      constructor
      · rw [write_other_buf _ _ _ _ _ (by simp), write_same]
      · rw [write_same]
  have hfinal := foldl_exec_invariant (fun m1 => Inv m1 ∧ P m1) (fun x => x ∈ pre ++ post)
    stepP post (fun x hx => List.mem_append_right _ hx) _ hbody
  have hrun : (generated_nest N).foldl exec m
      = post.foldl exec ((body N (i / 32) (j / 32) (i % 32) (j % 32)).foldl exec
          (pre.foldl exec m)) := by
    rw [he, List.foldl_append, List.foldl_append]
  rw [hrun]
  exact ⟨hfinal.2.1, hfinal.2.2, hfinal.1⟩

end Tutorial04B

namespace Tutorial04B

/-! ## The reference loop nest -/

theorem foldl_range_preserve {σ : Type} (f : σ → Nat → σ) (P : σ → Prop) (n : Nat)
    (hpres : ∀ s k, k < n → P s → P (f s k)) :
    ∀ s, P s → P ((List.range n).foldl f s) := by
  induction n with
  | zero => intro s hs; exact hs
  | succ n ih =>
    intro s hs
    rw [List.range_succ, List.foldl_append]
    exact hpres _ n (by omega) (ih (fun s k hk => hpres s k (by omega)) s hs)

theorem foldl_range_establish {σ : Type} (f : σ → Nat → σ) (P : σ → Prop) (n t : Nat)
    (ht : t < n) (hest : ∀ s, P (f s t)) (hpres : ∀ s k, k < n → k ≠ t → P s → P (f s k)) :
    ∀ s, P ((List.range n).foldl f s) := by
  induction n with
  | zero => omega
  | succ n ih =>
    intro s
    rw [List.range_succ, List.foldl_append]
    by_cases h : t = n
    · subst h; exact hest _
    · exact hpres _ n (by omega) (fun e => h e.symm)
        (ih (by omega) (fun s k hk => hpres s k (by omega)) s)

theorem set2_same (M : Int → Int → Nat) (i j : Int) (v : Nat) : set2 M i j v i j = v := by
  unfold set2
  rw [if_pos ⟨rfl, rfl⟩]

theorem set2_other (M : Int → Int → Nat) (i j a b : Int) (v : Nat) (h : ¬ (a = i ∧ b = j)) :
    set2 M i j v a b = M a b := by
  unfold set2
  rw [if_neg h]

theorem set2_set2 (M : Int → Int → Nat) (i j : Int) (v w : Nat) :
    set2 (set2 M i j v) i j w = set2 M i j w := by
  funext a b
  unfold set2
  split_ifs <;> rfl

theorem set2_self (M : Int → Int → Nat) (i j : Int) : set2 M i j (M i j) = M := by
  funext a b
  unfold set2
  split_ifs with h
  · obtain ⟨rfl, rfl⟩ := h; rfl
  · rfl

theorem ref_mac_C_aux (A B : Int → Int → Nat) (i j : Int) (n : Nat) (s : RefState)
    (hs : s.C i j < 256) :
    (List.range n).foldl (fun (s : RefState) (t : Nat) =>
        ({ s with C := set2 s.C i j (add8 (s.C i j) (mul8 (A i (t : Int)) (B (t : Int) j))) }
          : RefState)) s
      = { s with C := set2 s.C i j ((s.C i j + dot A B i j n) % 256) } := by
  induction n with
  | zero =>
    simp only [List.range_zero, List.foldl_nil, dot, Finset.range_zero, Finset.sum_empty,
      Nat.add_zero]
    rw [Nat.mod_eq_of_lt hs, set2_self]
  | succ n ih =>
    rw [List.range_succ, List.foldl_append, ih]
    simp only [List.foldl_cons, List.foldl_nil]
    have hv := uint8_acc (s.C i j) (dot A B i j n) (A i (n : Int) * B (n : Int) j)
    have hd : dot A B i j (n + 1) = dot A B i j n + A i (n : Int) * B (n : Int) j := by
      unfold dot; rw [Finset.sum_range_succ]
    rw [set2_same, set2_set2]
    unfold mul8
    rw [hv, hd]

theorem ref_mac_E_aux (A D : Int → Int → Nat) (i j : Int) (n : Nat) (s : RefState)
    (hs : s.E i j < 256) :
    (List.range n).foldl (fun (s : RefState) (t : Nat) =>
        ({ s with E := set2 s.E i j (add8 (s.E i j) (mul8 (A i (t : Int)) (D (t : Int) j))) }
          : RefState)) s
      = { s with E := set2 s.E i j ((s.E i j + dot A D i j n) % 256) } := by
  induction n with
  | zero =>
    simp only [List.range_zero, List.foldl_nil, dot, Finset.range_zero, Finset.sum_empty,
      Nat.add_zero]
    rw [Nat.mod_eq_of_lt hs, set2_self]
  | succ n ih =>
    rw [List.range_succ, List.foldl_append, ih]
    simp only [List.foldl_cons, List.foldl_nil]
    have hv := uint8_acc (s.E i j) (dot A D i j n) (A i (n : Int) * D (n : Int) j)
    have hd : dot A D i j (n + 1) = dot A D i j n + A i (n : Int) * D (n : Int) j := by
      unfold dot; rw [Finset.sum_range_succ]
    rw [set2_same, set2_set2]
    unfold mul8
    rw [hv, hd]

theorem ref_mac_C (N : Int) (A B : Int → Int → Nat) (i j : Int) (s : RefState)
    (hs : s.C i j < 256) :
    forRange N (fun k (s : RefState) =>
        ({ s with C := set2 s.C i j (add8 (s.C i j) (mul8 (A i k) (B k j))) } : RefState)) s
      = { s with C := set2 s.C i j ((s.C i j + dot A B i j N.toNat) % 256) } := by
  unfold forRange
  exact ref_mac_C_aux A B i j N.toNat s hs

theorem ref_mac_E (N : Int) (A D : Int → Int → Nat) (i j : Int) (s : RefState)
    (hs : s.E i j < 256) :
    forRange N (fun k (s : RefState) =>
        ({ s with E := set2 s.E i j (add8 (s.E i j) (mul8 (A i k) (D k j))) } : RefState)) s
      = { s with E := set2 s.E i j ((s.E i j + dot A D i j N.toNat) % 256) } := by
  unfold forRange
  exact ref_mac_E_aux A D i j N.toNat s hs

/-- Effect of one iteration of the `j` loop of the reference nest. -/
theorem reference_body_effect (N : Int) (A B D : Int → Int → Nat) (i j : Int) (s : RefState) :
    reference_body N A B D i j s =
      { C := set2 s.C i j (dot A B i j N.toNat % 256),
        E := set2 s.E i j (dot A D i j N.toNat % 256) } := by
  unfold reference_body
  dsimp only
  rw [ref_mac_C N A B i j _ (by dsimp only; rw [set2_same]; decide)]
  dsimp only
  rw [ref_mac_E N A D i j _ (by dsimp only; rw [set2_same]; decide)]
  dsimp only
  rw [set2_same, set2_same, set2_set2, set2_set2]
  simp [uint8]

end Tutorial04B

namespace Tutorial04B

/-- Contents of `C` and `E` after the reference loop nest. -/
theorem reference_result (N : Int) (A B D : Int → Int → Nat) (s : RefState) (i j : Int)
    (hi : 0 ≤ i ∧ i < N) (hj : 0 ≤ j ∧ j < N) :
    (reference N A B D s).C i j = dot A B i j N.toNat % 256 ∧
    (reference N A B D s).E i j = dot A D i j N.toNat % 256 := by
  have ei : ((i.toNat : Nat) : Int) = i := by omega
  have ej : ((j.toNat : Nat) : Int) = j := by omega
  unfold reference forRange
  apply foldl_range_establish _
    (fun s : RefState => s.C i j = dot A B i j N.toNat % 256 ∧
      s.E i j = dot A D i j N.toNat % 256) N.toNat i.toNat (by omega)
  · intro s1
    apply foldl_range_establish _
      (fun s : RefState => s.C i j = dot A B i j N.toNat % 256 ∧
        s.E i j = dot A D i j N.toNat % 256) N.toNat j.toNat (by omega)
    · intro s2
      dsimp only
      rw [ei, ej, reference_body_effect]
      exact ⟨set2_same _ _ _ _, set2_same _ _ _ _⟩
    · intro s2 k _ hk hP
      dsimp only
      rw [reference_body_effect]
      have hne : ¬ (i = ((i.toNat : Nat) : Int) ∧ j = (k : Int)) := by
        intro h; apply hk; omega
      exact ⟨(set2_other _ _ _ _ _ _ hne).trans hP.1, (set2_other _ _ _ _ _ _ hne).trans hP.2⟩
  · intro s1 k _ hk hP
    apply foldl_range_preserve _
      (fun s : RefState => s.C i j = dot A B i j N.toNat % 256 ∧
        s.E i j = dot A D i j N.toNat % 256) N.toNat _ s1 hP
    intro s2 k' _ hP2
    dsimp only
    rw [reference_body_effect]
    have hne : ¬ (i = (k : Int) ∧ j = (k' : Int)) := by
      intro h; apply hk; omega
    exact ⟨(set2_other _ _ _ _ _ _ hne).trans hP2.1, (set2_other _ _ _ _ _ _ hne).trans hP2.2⟩

/-- C3: for `N = 1000` and every content of the buffers, the generated
statement runs without an access outside a buffer, leaves the input buffers
unchanged, and leaves in `b_C[i*1000 + j]` and `b_E[i*1000 + j]`, for all
`0 ≤ i, j < 1000`, what the reference loop nest of the header comment leaves
in `C[i, j]` and `E[i, j]`: the sums of `A[i,k]*B[k,j]` and of `A[i,k]*D[k,j]`
over `k < 1000`, modulo 256. -/
theorem generated_refines_reference (m : Mem) (s : RefState) (i j : Int)
    (hi : 0 ≤ i ∧ i < 1000) (hj : 0 ≤ j ∧ j < 1000) :
    run generated m = some (generated.foldl exec m) ∧
    generated.foldl exec m .b_C (i * 1000 + j)
      = (reference 1000 (matrixOf (m .b_A)) (matrixOf (m .b_B)) (matrixOf (m .b_D)) s).C i j ∧
    generated.foldl exec m .b_E (i * 1000 + j)
      = (reference 1000 (matrixOf (m .b_A)) (matrixOf (m .b_B)) (matrixOf (m .b_D)) s).E i j ∧
    generated.foldl exec m .b_C (i * 1000 + j)
      = (∑ k ∈ Finset.range 1000,
          m .b_A (i * 1000 + (k : Int)) * m .b_B ((k : Int) * 1000 + j)) % 256 ∧
    generated.foldl exec m .b_E (i * 1000 + j)
      = (∑ k ∈ Finset.range 1000,
          m .b_A (i * 1000 + (k : Int)) * m .b_D ((k : Int) * 1000 + j)) % 256 ∧
    (∀ o, generated.foldl exec m .b_A o = m .b_A o ∧
      generated.foldl exec m .b_B o = m .b_B o ∧
      generated.foldl exec m .b_D o = m .b_D o) := by
  have hg := generated_nest_result (N := 1000) (by decide) (by decide) m i j hi hj
  have hr := reference_result 1000 (matrixOf (m .b_A)) (matrixOf (m .b_B)) (matrixOf (m .b_D))
    s i j hi hj
  have hv := generated_nest_valid (N := 1000) (by decide) (by decide)
  have hn : (1000 : Int).toNat = 1000 := rfl
  unfold generated
  refine ⟨run_eq_foldl _ hv m, hg.1.trans hr.1.symm, hg.2.1.trans hr.2.symm, ?_, ?_, hg.2.2⟩
  · rw [hg.1, hn]; rfl
  · rw [hg.2.1, hn]; rfl

/-- C3, witness: buffers filled with the constant 3, arrays `C`, `E` initially
filled with 7, at the last element `[999, 999]`. -/
theorem generated_refines_reference_witness :
    ((0 : Int) ≤ 999 ∧ (999 : Int) < 1000) ∧
    run generated (fun _ _ => 3) = some (generated.foldl exec (fun _ _ => 3)) ∧
    generated.foldl exec (fun _ _ => 3) .b_C (999 * 1000 + 999)
      = (reference 1000 (matrixOf (fun _ => 3)) (matrixOf (fun _ => 3)) (matrixOf (fun _ => 3))
          ⟨fun _ _ => 7, fun _ _ => 7⟩).C 999 999 :=
  ⟨by decide,
    (generated_refines_reference (fun _ _ => 3) ⟨fun _ _ => 7, fun _ _ => 7⟩ 999 999
      (by decide) (by decide)).1,
    (generated_refines_reference (fun _ _ => 3) ⟨fun _ _ => 7, fun _ _ => 7⟩ 999 999
      (by decide) (by decide)).2.1⟩

end Tutorial04B

namespace Tile

/-! ## Tiling visits every original index exactly once -/

theorem lt_outerCount {E T x : Int} (hT : 0 < T) (hx : x < E) : x / T < outerCount E T := by
  unfold outerCount
  rw [Int.lt_ceil]
  have hTq : (0 : ℚ) < (T : ℚ) := by exact_mod_cast hT
  rw [lt_div_iff₀ hTq]
  have h1 : x / T * T ≤ x := Int.ediv_mul_le x (ne_of_gt hT)
  have h2 : x / T * T < E := lt_of_le_of_lt h1 hx
  exact_mod_cast h2

/-- C1: for every extent `E ≥ 0` and tile size `T > 0`, the map
`(outer, inner) ↦ outer*T + inner` sends the tiled domain
`0 ≤ outer < ceil(E/T)`, `0 ≤ inner < min(T, E − outer*T)` into `{0, …, E−1}`,
and every `x` of `{0, …, E−1}` is the image of exactly one pair of the domain. -/
theorem tile_bijection (E T : Int) (_hE : 0 ≤ E) (hT : 0 < T) :
    (∀ p : Int × Int, inTile E T p → 0 ≤ original T p ∧ original T p < E) ∧
    (∀ x : Int, 0 ≤ x → x < E → ∃! p : Int × Int, inTile E T p ∧ original T p = x) := by
  constructor
  · rintro ⟨o, i⟩ ⟨⟨ho, _⟩, ⟨hi, hlt⟩⟩
    simp only [original] at *
    have h1 : 0 ≤ o * T := mul_nonneg ho (le_of_lt hT)
    have h2 : i < E - o * T := lt_of_lt_of_le hlt (min_le_right _ _)
    constructor <;> omega
  · intro x hx0 hxE
    have hdm : T * (x / T) + x % T = x := Int.ediv_add_emod x T
    have hm0 : 0 ≤ x % T := Int.emod_nonneg x (ne_of_gt hT)
    have hmT : x % T < T := Int.emod_lt_of_pos x hT
    have hd0 : 0 ≤ x / T := Int.ediv_nonneg hx0 (le_of_lt hT)
    have hc : x / T * T = T * (x / T) := mul_comm _ _
    refine ⟨(x / T, x % T), ⟨⟨⟨hd0, lt_outerCount hT hxE⟩, ⟨hm0, ?_⟩⟩, ?_⟩, ?_⟩
    · show x % T < min T (E - x / T * T)
      rw [lt_min_iff]
      constructor
      · exact hmT
      · omega
    · show x / T * T + x % T = x
      omega
    · rintro ⟨o, i⟩ ⟨⟨⟨ho, _⟩, ⟨hi, hlt⟩⟩, hxo⟩
      simp only [original] at hxo
      have hiT : i < T := lt_of_lt_of_le hlt (min_le_left _ _)
      have hu := (Int.ediv_emod_unique (a := x) (r := i) (q := o) hT).2
        ⟨by rw [mul_comm T o]; omega, hi, hiT⟩
      rw [Prod.mk.injEq]
      exact ⟨hu.1.symm, hu.2.symm⟩

/-- C1, witness: the tilings `E = 1000, T = 32` of tutorial 04B and
`E = 10, T = 2` of tutorial 01. -/
theorem tile_bijection_witness :
    ((0 : Int) ≤ 1000 ∧ (0 : Int) < 32) ∧
    ((∀ p : Int × Int, inTile 1000 32 p → 0 ≤ original 32 p ∧ original 32 p < 1000) ∧
      (∀ x : Int, 0 ≤ x → x < 1000 →
        ∃! p : Int × Int, inTile 1000 32 p ∧ original 32 p = x)) ∧
    ((∀ p : Int × Int, inTile 10 2 p → 0 ≤ original 2 p ∧ original 2 p < 10) ∧
      (∀ x : Int, 0 ≤ x → x < 10 → ∃! p : Int × Int, inTile 10 2 p ∧ original 2 p = x)) :=
  ⟨by decide, tile_bijection 1000 32 (by decide) (by decide),
    tile_bijection 10 2 (by decide) (by decide)⟩

end Tile

namespace Configure

/-! ## The sorting loops of the C `median` -/

theorem read_natCast {α : Type} (x : List α) (k : Nat) : read x (k : Int) = x[k]? := by
  unfold read
  rw [if_pos (Int.natCast_nonneg k), Int.toNat_natCast]

theorem forEach_append {α : Type} (l1 l2 : List Nat) (body : Nat → List α → Option (List α))
    (x : List α) :
    forEach (l1 ++ l2) body x = (forEach l1 body x).bind (forEach l2 body) := by
  induction l1 generalizing x with
  | nil => rfl
  | cons k ks ih =>
    simp only [List.cons_append, forEach]
    cases body k x with
    | none => rfl
    | some y => exact ih y

theorem forEach_single {α : Type} (k : Nat) (body : Nat → List α → Option (List α))
    (x : List α) : forEach [k] body x = body k x := by
  simp only [forEach]
  cases body k x <;> rfl

/-- Exchanging the elements at two positions of a list permutes it. -/
theorem exchange_perm {α : Type} (x : List α) (i j : Nat) (xi xj : α)
    (hi : x[i]? = some xi) (hj : x[j]? = some xj) :
    ((x.set i xj).set j xi).Perm x := by
  obtain ⟨hil, hie⟩ := List.getElem?_eq_some.1 hi
  obtain ⟨hjl, hje⟩ := List.getElem?_eq_some.1 hj
  have h := Equiv.Perm.ofFn_comp_perm (Equiv.swap (⟨i, hil⟩ : Fin x.length) ⟨j, hjl⟩)
    (fun k : Fin x.length => x[(k : Nat)])
  rw [List.ofFn_getElem] at h
  have e : List.ofFn ((fun k : Fin x.length => x[(k : Nat)]) ∘
      (Equiv.swap (⟨i, hil⟩ : Fin x.length) ⟨j, hjl⟩)) = (x.set i xj).set j xi := by
    apply List.ext_getElem
    · simp
    · intro k hk1 hk2
      have hk : k < x.length := by simpa using hk1
      rw [List.getElem_ofFn, List.getElem_set, List.getElem_set]
      simp only [Function.comp_apply, Equiv.swap_apply_def, Fin.mk.injEq]
      by_cases h1 : k = j
      · subst h1
        simp only [if_true]
        by_cases h2 : k = i
        · subst h2; simp [hie]
        · simp [h2, hie]
      · by_cases h2 : k = i
        · subst h2
          have : ¬ j = k := fun e => h1 e.symm
          simp [this, hje]
        · have a : ¬ j = k := fun e => h1 e.symm
          have b : ¬ i = k := fun e => h2 e.symm
          simp [h1, h2, a, b]
  rw [← e]
  exact h

end Configure

namespace Configure

/-- One comparison and exchange: the smaller of the two elements ends at `i`,
the larger at `j`, the rest of the array is untouched. -/
theorem swapIfLess_spec {α : Type} [LinearOrder α] (x : List α) (i j : Nat) (hij : i < j)
    (hj : j < x.length) :
    ∃ y xi xj, swapIfLess i j x = some y ∧ y.length = x.length ∧ y.Perm x ∧
      x[i]? = some xi ∧ x[j]? = some xj ∧
      y[i]? = some (min xi xj) ∧ y[j]? = some (max xi xj) ∧
      (∀ k, k ≠ i → k ≠ j → y[k]? = x[k]?) := by
  have hi : i < x.length := by omega
  have ei : x[i]? = some x[i] := List.getElem?_eq_getElem hi
  have ej : x[j]? = some x[j] := List.getElem?_eq_getElem hj
  unfold swapIfLess
  simp only [read_natCast, ei, ej, Option.some_bind]
  by_cases hlt : x[j] < x[i]
  · refine ⟨(x.set i x[j]).set j x[i], x[i], x[j], by rw [if_pos hlt], by simp,
      exchange_perm x i j _ _ ei ej, rfl, rfl, ?_, ?_, ?_⟩
    · rw [List.getElem?_set_ne (by omega), List.getElem?_set_self hi, min_eq_right (le_of_lt hlt)]
    · rw [List.getElem?_set_self (by simpa using hj), max_eq_left (le_of_lt hlt)]
    · intro k h1 h2
      rw [List.getElem?_set_ne (fun e => h2 e.symm), List.getElem?_set_ne (fun e => h1 e.symm)]
  · have hle : x[i] ≤ x[j] := not_lt.1 hlt
    refine ⟨x, x[i], x[j], by rw [if_neg hlt], rfl, List.Perm.refl _, rfl, rfl, ?_, ?_, ?_⟩
    · rw [ei, min_eq_left hle]
    · rw [ej, max_eq_right hle]
    · intro k _ _; rfl

/-- The `j` loop after `c` iterations: the element at `i` is not above the
elements at `i+1, ..., i+c`, the positions below `i` are untouched, and the
values at positions from `i` on are values that were there before. -/
theorem innerLoop_prefix_spec {α : Type} [LinearOrder α] (i c : Nat) (x : List α)
    (h : i + 1 + c ≤ x.length) :
    ∃ y, forEach (List.range' (i + 1) c) (fun j x => swapIfLess i j x) x = some y ∧
      y.length = x.length ∧ y.Perm x ∧
      (∀ k, k < i → y[k]? = x[k]?) ∧
      (∀ k v, i ≤ k → y[k]? = some v → ∃ k1, i ≤ k1 ∧ x[k1]? = some v) ∧
      (∀ k vi vk, i < k → k < i + 1 + c → y[i]? = some vi → y[k]? = some vk → vi ≤ vk) := by
  induction c with
  | zero =>
    refine ⟨x, rfl, rfl, List.Perm.refl _, fun _ _ => rfl, fun k v hk hv => ⟨k, hk, hv⟩, ?_⟩
    intro k vi vk h1 h2
    omega
  | succ c ih =>
    obtain ⟨y1, r1, l1, p1, pre1, suf1, le1⟩ := ih (by omega)
    obtain ⟨y2, a, b, r2, l2, p2, ha, hb, hmin, hmax, oth⟩ :=
      swapIfLess_spec y1 i (i + 1 + c) (by omega) (by omega)
    refine ⟨y2, ?_, l2.trans l1, p2.trans p1, ?_, ?_, ?_⟩
    · rw [List.range'_concat, forEach_append, r1, Option.some_bind, forEach_single,
        Nat.one_mul]
      exact r2
    · intro k hk
      rw [oth k (by omega) (by omega)]
      exact pre1 k hk
    · intro k v hk hv
      by_cases h1 : k = i
      · subst h1
        rw [hmin] at hv
        rcases min_choice a b with e | e
        · exact suf1 k v hk (by rw [ha, ← e]; exact hv)
        · exact suf1 (k + 1 + c) v (by omega) (by rw [hb, ← e]; exact hv)
      · by_cases h2 : k = i + 1 + c
        · subst h2
          rw [hmax] at hv
          rcases max_choice a b with e | e
          · exact suf1 i v (le_refl _) (by rw [ha, ← e]; exact hv)
          · exact suf1 (i + 1 + c) v (by omega) (by rw [hb, ← e]; exact hv)
        · rw [oth k h1 h2] at hv
          exact suf1 k v hk hv
    · intro k vi vk hk1 hk2 hvi hvk
      rw [hmin] at hvi
      have hvi' : vi = min a b := (Option.some.inj hvi).symm
      by_cases h2 : k = i + 1 + c
      · subst h2
        rw [hmax] at hvk
        have hvk' : vk = max a b := (Option.some.inj hvk).symm
        rw [hvi', hvk']
        exact le_trans (min_le_left _ _) (le_max_left _ _)
      · rw [oth k (by omega) h2] at hvk
        have := le1 k a vk hk1 (by omega) ha hvk
        rw [hvi']
        exact le_trans (min_le_left _ _) this

end Configure

namespace Configure

/-- The `i` loop after `c` iterations: each of the first `c` elements is not
above any element after it. -/
theorem sortLoops_prefix_spec {α : Type} [LinearOrder α] (x : List α) (c : Nat)
    (h : c ≤ x.length - 1) :
    ∃ y, forEach (List.range c) (fun i y => innerLoop (x.length : Int) i y) x = some y ∧
      y.length = x.length ∧ y.Perm x ∧
      (∀ a b va vb, a < c → a < b → y[a]? = some va → y[b]? = some vb → va ≤ vb) := by
  induction c with
  | zero =>
    refine ⟨x, rfl, rfl, List.Perm.refl _, ?_⟩
    intro a b va vb h1
    omega
  | succ c ih =>
    obtain ⟨y1, r1, l1, p1, s1⟩ := ih (by omega)
    have hcnt : ((x.length : Int) - ((c : Int) + 1)).toNat = x.length - (c + 1) := by omega
    obtain ⟨y2, r2, l2, p2, pre2, suf2, le2⟩ :=
      innerLoop_prefix_spec c (x.length - (c + 1)) y1 (by omega)
    refine ⟨y2, ?_, l2.trans l1, p2.trans p1, ?_⟩
    · rw [List.range_succ, forEach_append, r1, Option.some_bind, forEach_single]
      unfold innerLoop
      rw [hcnt]
      exact r2
    · intro a b va vb hac hab hva hvb
      by_cases hc : a = c
      · subst hc
        have hb : b < y2.length := (List.getElem?_eq_some.1 hvb).1
        exact le2 b va vb hab (by omega) hva hvb
      · have ha : a < c := by omega
        rw [pre2 a ha] at hva
        by_cases hbc : b < c
        · rw [pre2 b hbc] at hvb
          exact s1 a b va vb ha hab hva hvb
        · obtain ⟨k1, hk1, hv1⟩ := suf2 b vb (by omega) hvb
          exact s1 a k1 va vb ha (by omega) hva hv1

/-- A list whose earlier elements are not above its later ones is ascending. -/
theorem sorted_of_getElem?_le {α : Type} [LinearOrder α] (y : List α)
    (h : ∀ a b va vb, a < y.length - 1 → a < b → y[a]? = some va → y[b]? = some vb → va ≤ vb) :
    y.Sorted (· ≤ ·) := by
  unfold List.Sorted
  rw [List.pairwise_iff_getElem]
  intro a b ha hb hab
  exact h a b y[a] y[b] (by omega) hab (List.getElem?_eq_getElem ha)
    (List.getElem?_eq_getElem hb)

/-- The two loops on an array and its own length. -/
theorem sortLoops_length {α : Type} [LinearOrder α] (x : List α) :
    ∃ y, sortLoops (x.length : Int) x = some y ∧ y.length = x.length ∧ y.Perm x ∧
      (∀ a b va vb, a < y.length - 1 → a < b → y[a]? = some va → y[b]? = some vb →
        va ≤ vb) := by
  have hc : ((x.length : Int) - 1).toNat = x.length - 1 := by omega
  obtain ⟨y, r, l, p, s⟩ := sortLoops_prefix_spec x (x.length - 1) (le_refl _)
  refine ⟨y, ?_, l, p, ?_⟩
  · unfold sortLoops
    rw [hc]
    exact r
  · rw [l]
    exact s

/-- C8: on an array `x` of length `n` the two nested loops terminate normally
and leave `x` in ascending order, a permutation of its original contents. -/
theorem sortLoops_sorts {α : Type} [LinearOrder α] (n : Int) (x : List α)
    (hn : (x.length : Int) = n) :
    ∃ y, sortLoops n x = some y ∧ y.Sorted (· ≤ ·) ∧ y.Perm x := by
  subst hn
  obtain ⟨y, r, _, p, s⟩ := sortLoops_length x
  exact ⟨y, r, sorted_of_getElem?_le y s, p⟩

/-- C8, witness: an array of five distinct values and one repeated value. -/
theorem sortLoops_sorts_witness :
    ((([5, 1, 9, 1, 7, 2] : List Int).length : Int) = 6) ∧
    ∃ y, sortLoops 6 ([5, 1, 9, 1, 7, 2] : List Int) = some y ∧ y.Sorted (· ≤ ·) ∧
      y.Perm [5, 1, 9, 1, 7, 2] :=
  ⟨by decide, sortLoops_sorts 6 [5, 1, 9, 1, 7, 2] (by decide)⟩

end Configure

namespace Configure

/-! ## The two `median` functions return the median -/

theorem sort_eq_of_sorted_perm {α : Type} [LinearOrder α] {scores s : List α}
    (hs : s.Sorted (· ≤ ·)) (hp : s.Perm scores) : sort scores = s := by
  unfold sort
  exact List.eq_of_perm_of_sorted ((List.perm_insertionSort _ scores).trans hp.symm)
    (List.sorted_insertionSort _ scores) hs

theorem read_getD {α : Type} [Zero α] (s : List α) (k : Nat) (hk : k < s.length) :
    read s (k : Int) = some (s.getD k 0) := by
  rw [read_natCast, List.getElem?_eq_getElem hk, List.getD_eq_getElem _ _ hk]

theorem median_cpp_eq {α : Type} [LinearOrderedField α] (scores s : List α)
    (hne : scores ≠ []) (hs : s.Sorted (· ≤ ·)) (hp : s.Perm scores) :
    median scores = some (medianOfSorted s) := by
  have hlen : scores.length = s.length := hp.length_eq.symm
  have hpos : 0 < s.length := by
    rw [← hlen]; exact List.length_pos.2 hne
  unfold median medianOfSorted
  dsimp only
  rw [sort_eq_of_sorted_perm hs hp, hlen]
  by_cases hev : s.length % 2 = 0
  · have hodd : ¬ s.length % 2 = 1 := by omega
    have hc : (((s.length / 2 : Nat) : Int) - 1) = ((s.length / 2 - 1 : Nat) : Int) := by omega
    rw [if_pos hev, if_neg hodd, hc, read_getD s _ (by omega), read_getD s _ (by omega)]
    rfl
  · have hodd : s.length % 2 = 1 := by omega
    rw [if_neg hev, if_pos hodd, read_getD s _ (by omega)]

theorem median_c_eq {α : Type} [LinearOrderedField α] (scores s : List α)
    (hne : scores ≠ []) (hs : s.Sorted (· ≤ ·)) (hp : s.Perm scores) :
    median_c (scores.length : Int) scores = some (medianOfSorted s) := by
  have hlen : scores.length = s.length := hp.length_eq.symm
  have hpos : 0 < s.length := by
    rw [← hlen]; exact List.length_pos.2 hne
  obtain ⟨y, hy, _, yperm, yle⟩ := sortLoops_length scores
  have ysorted := sorted_of_getElem?_le y yle
  have hys : y = s := List.eq_of_perm_of_sorted (yperm.trans hp.symm) ysorted hs
  subst hys
  have hm : Int.tmod (scores.length : Int) 2 = ((scores.length % 2 : Nat) : Int) := by
    rw [Int.tmod_eq_emod (by omega) (by omega)]; omega
  have hd : Int.tdiv (scores.length : Int) 2 = ((scores.length / 2 : Nat) : Int) := by
    rw [Int.tdiv_eq_ediv (by omega) (by omega)]; omega
  unfold median_c medianOfSorted
  rw [hy, Option.some_bind, hm, hd, hlen]
  by_cases hev : y.length % 2 = 0
  · have hodd : ¬ y.length % 2 = 1 := by omega
    have hc : (((y.length / 2 : Nat) : Int) - 1) = ((y.length / 2 - 1 : Nat) : Int) := by omega
    have h0 : ((y.length % 2 : Nat) : Int) = 0 := by omega
    rw [if_pos h0, if_neg hodd, hc, read_getD y _ (by omega), read_getD y _ (by omega)]
    simp only [Option.some_bind]
    rw [add_comm]
  · have hodd : y.length % 2 = 1 := by omega
    have h0 : ¬ ((y.length % 2 : Nat) : Int) = 0 := by omega
    rw [if_neg h0, if_pos hodd, read_getD y _ (by omega)]

/-- C7: on a non-empty input, with `s` the input in ascending order, both
`median` functions return `s[n/2]` for odd `n` and `(s[n/2 - 1] + s[n/2]) / 2`
for even `n`; hence they agree and give the same result on every rearrangement
of the input. -/
theorem median_is_median {α : Type} [LinearOrderedField α] (scores s : List α)
    (hne : scores ≠ []) (hs : s.Sorted (· ≤ ·)) (hp : s.Perm scores) :
    median scores = some (medianOfSorted s) ∧
    median_c (scores.length : Int) scores = some (medianOfSorted s) ∧
    median scores = median_c (scores.length : Int) scores ∧
    (∀ scores1 : List α, scores1.Perm scores →
      median scores1 = median scores ∧
      median_c (scores1.length : Int) scores1 = median_c (scores.length : Int) scores) := by
  have h1 := median_cpp_eq scores s hne hs hp
  have h2 := median_c_eq scores s hne hs hp
  refine ⟨h1, h2, h1.trans h2.symm, ?_⟩
  intro scores1 hp1
  have hne1 : scores1 ≠ [] := by
    intro e
    rw [e] at hp1
    exact hne (List.Perm.eq_nil hp1.symm)
  have hp' : s.Perm scores1 := hp.trans hp1.symm
  exact ⟨(median_cpp_eq scores1 s hne1 hs hp').trans h1.symm,
    (median_c_eq scores1 s hne1 hs hp').trans h2.symm⟩

/-- C7, witness: four rational scores, with ascending order `1, 5, 7, 9`. -/
theorem median_is_median_witness :
    median ([5, 1, 9, 7] : List ℚ) = some (medianOfSorted [1, 5, 7, 9]) ∧
    median_c ((([5, 1, 9, 7] : List ℚ).length : Nat) : Int) ([5, 1, 9, 7] : List ℚ)
      = some (medianOfSorted [1, 5, 7, 9]) ∧
    median ([5, 1, 9, 7] : List ℚ)
      = median_c ((([5, 1, 9, 7] : List ℚ).length : Nat) : Int) ([5, 1, 9, 7] : List ℚ) ∧
    (∀ scores1 : List ℚ, scores1.Perm [5, 1, 9, 7] →
      median scores1 = median ([5, 1, 9, 7] : List ℚ) ∧
      median_c (scores1.length : Int) scores1
        = median_c ((([5, 1, 9, 7] : List ℚ).length : Nat) : Int) ([5, 1, 9, 7] : List ℚ)) :=
  median_is_median [5, 1, 9, 7] [1, 5, 7, 9] (by simp) (by norm_num [List.Sorted])
    (by decide)

end Configure

namespace Tutorial04B

/-! ## Executions of the parallel loop -/

theorem iterations_label (N c : Int) : ∀ s ∈ iterations N c, s.c1 = c := by
  intro s hs
  unfold iterations at hs
  split_ifs at hs
  · exact loop_c3_point hs
  · cases hs

/-- In an execution, the stores of one iteration appear in the order of
that iteration. -/
theorem interleaving_filter {th : Int → List Inst} {t : List Inst} (h : Interleaving th t)
    (hl : ∀ c, ∀ s ∈ th c, s.c1 = c) (c : Int) :
    t.filter (fun s => decide (s.c1 = c)) = th c := by
  induction h with
  | done th h => rw [h c]; rfl
  | step th c0 x l t hc rest ih =>
    have hx : x.c1 = c0 := hl c0 x (by rw [hc]; exact List.mem_cons_self _ _)
    have hl1 : ∀ d, ∀ s ∈ Function.update th c0 l d, s.c1 = d := by
      intro d s hs
      by_cases e : d = c0
      · subst e
        rw [Function.update_same] at hs
        exact hl d s (by rw [hc]; exact List.mem_cons_of_mem _ hs)
      · rw [Function.update_noteq e] at hs
        exact hl d s hs
    have ih1 := ih hl1
    by_cases e : c = c0
    · subst e
      rw [List.filter_cons_of_pos (by simpa using hx), ih1, Function.update_same, hc]
    · have hne : ¬ x.c1 = c := fun h => e (h.symm.trans hx)
      rw [List.filter_cons_of_neg (by simpa using hne), ih1, Function.update_noteq e]

/-- An iteration may execute several of its stores in a row. -/
theorem interleaving_run {th : Int → List Inst} (c : Int) (xs l t : List Inst)
    (h : th c = xs ++ l) (rest : Interleaving (Function.update th c l) t) :
    Interleaving th (xs ++ t) := by
  induction xs generalizing th with
  | nil =>
    have e : Function.update th c l = th := by
      rw [Function.update_eq_self_iff]; exact h.symm
    rw [e] at rest
    exact rest
  | cons x xs ih =>
    refine Interleaving.step th c x (xs ++ l) (xs ++ t) h ?_
    apply ih
    · rw [Function.update_same]
    · rw [Function.update_idem]
      exact rest

/-- The iterations executed one after the other, in increasing order, form an
execution. -/
theorem interleaving_seq (n : Nat) : ∀ (lo : Int) (th : Int → List Inst),
    (∀ c, ¬ (lo ≤ c ∧ c < lo + (n : Int)) → th c = []) →
    Interleaving th ((List.range n).flatMap fun k : Nat => th (lo + (k : Int))) := by
  induction n with
  | zero =>
    intro lo th h
    exact Interleaving.done th (fun c => h c (by omega))
  | succ n ih =>
    intro lo th h
    rw [List.range_succ_eq_map, List.flatMap_cons, List.flatMap_map]
    have e0 : lo + ((0 : Nat) : Int) = lo := by omega
    rw [e0]
    apply interleaving_run lo (th lo) [] _ (List.append_nil _).symm
    have hth : ∀ c, ¬ (lo + 1 ≤ c ∧ c < lo + 1 + (n : Int)) →
        Function.update th lo [] c = [] := by
      intro c hc
      by_cases e : c = lo
      · subst e; rw [Function.update_same]
      · rw [Function.update_noteq e]
        exact h c (by push_cast; omega)
    have := ih (lo + 1) (Function.update th lo []) hth
    have ec : ((List.range n).flatMap fun k : Nat =>
          Function.update th lo [] (lo + 1 + (k : Int)))
        = (List.range n).flatMap ((fun k : Nat => th (lo + (k : Int))) ∘ Nat.succ) := by
      apply List.flatMap_congr
      intro k _
      have hne : lo + 1 + (k : Int) ≠ lo := by omega
      rw [Function.update_noteq hne]
      show th _ = th _
      congr 1
      push_cast
      omega
    rw [ec] at this
    exact this

/-- The sequential run of the parallel loop is one of the executions. -/
theorem generated_nest_execution (N : Int) : Execution N (generated_nest N) := by
  unfold Execution
  have h := interleaving_seq (outerExtent N).toNat 0 (iterations N) (by
    intro c hc
    unfold iterations
    rw [if_neg]
    intro hh
    apply hc
    omega)
  have e : ((List.range (outerExtent N).toNat).flatMap fun k : Nat =>
        iterations N (0 + (k : Int))) = generated_nest N := by
    rw [generated_nest_eq]
    unfold forLoop
    apply List.flatMap_congr
    intro k hk
    rw [List.mem_range] at hk
    unfold iterations
    rw [if_pos (by omega)]
  rw [e] at h
  exact h

end Tutorial04B

namespace Tutorial04B

/-- One iteration of the parallel loop is the stores of other points of the
iteration, then the body of the point, then stores of other points of the
iteration. -/
theorem loop_c3_around {N c1 c3 c5 c7 : Int} (hb : inBounds N c1 c3 c5 c7) :
    ∃ pre post, loop_c3 N c1 = pre ++ body N c1 c3 c5 c7 ++ post ∧
      ∀ x ∈ pre ++ post, x.c1 = c1 ∧ ¬ (x.c3 = c3 ∧ x.c5 = c5 ∧ x.c7 = c7) := by
  obtain ⟨_, ⟨b1, b2⟩, ⟨d1, d2⟩, ⟨e1, e2⟩⟩ := hb
  obtain ⟨p3, q3, h3, n3⟩ := forLoop_around (fun c3 => loop_c5 N c1 c3) b1 b2
  obtain ⟨p5, q5, h5, n5⟩ := forLoop_around (fun c5 => loop_c7 N c1 c3 c5) d1 d2
  obtain ⟨p7, q7, h7, n7⟩ := forLoop_around (fun c7 => body N c1 c3 c5 c7) e1 e2
  refine ⟨p3 ++ p5 ++ p7, q7 ++ q5 ++ q3, ?_, ?_⟩
  · unfold loop_c3
    rw [h3]
    show p3 ++ loop_c5 N c1 c3 ++ q3 = _
    unfold loop_c5
    rw [h5]
    show p3 ++ (p5 ++ loop_c7 N c1 c3 c5 ++ q5) ++ q3 = _
    unfold loop_c7
    rw [h7]
    simp only [List.append_assoc]
  · intro x hx
    have hx1 : x ∈ p3 ++ q3 ∨ x ∈ p5 ++ q5 ∨ x ∈ p7 ++ q7 := by
      simp only [List.mem_append] at hx ⊢
      tauto
    rcases hx1 with h | h | h
    · obtain ⟨d, hd, hm⟩ := n3 x h
      obtain ⟨a, b⟩ := loop_c5_point hm
      exact ⟨a, fun hh => hd (b.symm.trans hh.1)⟩
    · obtain ⟨d, hd, hm⟩ := n5 x h
      obtain ⟨a, _, b⟩ := loop_c7_point hm
      exact ⟨a, fun hh => hd (b.symm.trans hh.2.1)⟩
    · obtain ⟨d, hd, hm⟩ := n7 x h
      obtain ⟨a, _, _, b⟩ := body_point hm
      exact ⟨a, fun hh => hd (b.symm.trans hh.2.2)⟩

theorem forLoop_head {extent : Int} (f : Int → List Inst) (h : 0 < 0 + extent) :
    ∃ tl, forLoop 0 extent f = f 0 ++ tl := by
  refine ⟨forLoop (0 + 1) (0 + extent - (0 + 1)) f, ?_⟩
  rw [forLoop_split f (le_refl 0) h]
  have e : forLoop 0 (0 - 0) f = [] := rfl
  rw [e, List.nil_append]

/-- An iteration of the parallel loop starts with the two initialisations of
its first point. -/
theorem loop_c3_head {N c1 : Int} (hb : inBounds N c1 0 0 0) :
    ∃ tl, loop_c3 N c1 = stmt_C_init c1 0 0 0 :: stmt_E_init c1 0 0 0 :: tl := by
  obtain ⟨_, ⟨_, b2⟩, ⟨_, d2⟩, ⟨_, e2⟩⟩ := hb
  obtain ⟨t3, h3⟩ := forLoop_head (fun c3 => loop_c5 N c1 c3) b2
  obtain ⟨t5, h5⟩ := forLoop_head (fun c5 => loop_c7 N c1 0 c5) d2
  obtain ⟨t7, h7⟩ := forLoop_head (fun c7 => body N c1 0 0 c7) e2
  refine ⟨forLoop 0 (redExtent N) (fun c9 => [stmt_c_C c1 0 0 0 c9])
    ++ forLoop 0 (redExtent N) (fun c9 => [stmt_c_E c1 0 0 0 c9]) ++ t7 ++ t5 ++ t3, ?_⟩
  unfold loop_c3
  rw [h3]
  show loop_c5 N c1 0 ++ t3 = _
  unfold loop_c5
  rw [h5]
  show loop_c7 N c1 0 0 ++ t5 ++ t3 = _
  unfold loop_c7
  rw [h7]
  show body N c1 0 0 0 ++ t7 ++ t5 ++ t3 = _
  unfold body
  simp only [List.append_assoc, List.cons_append, List.nil_append]

/-- The overlapping run is an execution of the loop nest, when the parallel
loop has at least two iterations. -/
theorem interleaved_run_execution {N : Int} (h : 2 ≤ outerExtent N) :
    Execution N (interleaved_run N) := by
  have i0 : iterations N 0 = loop_c3 N 0 := by
    unfold iterations; rw [if_pos (by omega)]
  have i1 : iterations N 1 = loop_c3 N 1 := by
    unfold iterations; rw [if_pos (by omega)]
  unfold Execution interleaved_run
  rw [List.append_assoc, List.append_assoc]
  apply interleaving_run 0 _ ((loop_c3 N 0).drop 1) _
    (by rw [i0, List.take_append_drop])
  apply interleaving_run 1 (loop_c3 N 1) [] _
    (by rw [Function.update_noteq (by decide), i1, List.append_nil])
  apply interleaving_run 0 ((loop_c3 N 0).drop 1) [] _
    (by rw [Function.update_noteq (by decide), Function.update_same, List.append_nil])
  have hth : ∀ c, ¬ (2 ≤ c ∧ c < 2 + (((outerExtent N - 2).toNat : Nat) : Int)) →
      Function.update (Function.update (Function.update (iterations N) 0
        ((loop_c3 N 0).drop 1)) 1 []) 0 [] c = [] := by
    intro c hc
    by_cases e0 : c = 0
    · subst e0; rw [Function.update_same]
    · rw [Function.update_noteq e0]
      by_cases e1 : c = 1
      · subst e1; rw [Function.update_same]
      · rw [Function.update_noteq e1, Function.update_noteq e0]
        unfold iterations
        rw [if_neg]
        intro hh
        apply hc
        omega
  have hs := interleaving_seq (outerExtent N - 2).toNat 2 _ hth
  have e : ((List.range (outerExtent N - 2).toNat).flatMap fun k : Nat =>
        Function.update (Function.update (Function.update (iterations N) 0
          ((loop_c3 N 0).drop 1)) 1 []) 0 [] (2 + (k : Int)))
      = forLoop 2 (outerExtent N - 2) (loop_c3 N) := by
    unfold forLoop
    apply List.flatMap_congr
    intro k hk
    rw [List.mem_range] at hk
    have n0 : 2 + (k : Int) ≠ 0 := by omega
    have n1 : 2 + (k : Int) ≠ 1 := by omega
    rw [Function.update_noteq n0, Function.update_noteq n1, Function.update_noteq n0]
    unfold iterations
    rw [if_pos (by omega)]
  rw [e] at hs
  exact hs

theorem outerExtent_1000 : outerExtent 1000 = 32 := by
  rw [outerExtent_eq (by decide) (by decide)]; decide

end Tutorial04B

namespace Tutorial04B

theorem declaredOrder_eq_body {N : Int} (h1 : 0 ≤ N) (h2 : N < 2147483648)
    (c1 c3 c5 c7 : Int) : declaredOrder N c1 c3 c5 c7 = body N c1 c3 c5 c7 := by
  rw [body_eq_block h1 h2]; rfl

/-- The stores of a list at one point, when the list is the body of the point
between stores of the same iteration at other points. -/
theorem filter_point_around {c1 c3 c5 c7 : Int} (pre blk post : List Inst)
    (hblk : ∀ x ∈ blk, x.c1 = c1 ∧ x.c3 = c3 ∧ x.c5 = c5 ∧ x.c7 = c7)
    (hn : ∀ x ∈ pre ++ post, ¬ (x.c1 = c1 ∧ x.c3 = c3 ∧ x.c5 = c5 ∧ x.c7 = c7)) :
    (pre ++ blk ++ post).filter
      (fun s => decide (s.c1 = c1 ∧ s.c3 = c3 ∧ s.c5 = c5 ∧ s.c7 = c7)) = blk := by
  have hpre : pre.filter
      (fun s => decide (s.c1 = c1 ∧ s.c3 = c3 ∧ s.c5 = c5 ∧ s.c7 = c7)) = [] := by
    rw [List.filter_eq_nil_iff]
    intro x hx
    simpa using hn x (List.mem_append_left _ hx)
  have hpost : post.filter
      (fun s => decide (s.c1 = c1 ∧ s.c3 = c3 ∧ s.c5 = c5 ∧ s.c7 = c7)) = [] := by
    rw [List.filter_eq_nil_iff]
    intro x hx
    simpa using hn x (List.mem_append_right _ hx)
  have hb : blk.filter
      (fun s => decide (s.c1 = c1 ∧ s.c3 = c3 ∧ s.c5 = c5 ∧ s.c7 = c7)) = blk := by
    rw [List.filter_eq_self]
    intro x hx
    simpa using hblk x hx
  rw [List.filter_append, List.filter_append, hpre, hpost, hb, List.nil_append,
    List.append_nil]

theorem filter_point_of_iteration (c1 c3 c5 c7 : Int) (t : List Inst) :
    t.filter (fun s => decide (s.c1 = c1 ∧ s.c3 = c3 ∧ s.c5 = c5 ∧ s.c7 = c7))
      = (t.filter (fun s => decide (s.c1 = c1))).filter
          (fun s => decide (s.c1 = c1 ∧ s.c3 = c3 ∧ s.c5 = c5 ∧ s.c7 = c7)) := by
  rw [List.filter_filter]
  congr 1
  funext s
  by_cases h : s.c1 = c1 <;> simp [h]

/-- In every execution the stores of an in-bounds point, in the order of their
execution, are the declared order of the point. -/
theorem execution_point_filter {N c1 c3 c5 c7 : Int} (h1 : 0 ≤ N) (h2 : N < 2147483648)
    (hb : inBounds N c1 c3 c5 c7) {t : List Inst} (ht : Execution N t) :
    t.filter (fun s => decide (s.c1 = c1 ∧ s.c3 = c3 ∧ s.c5 = c5 ∧ s.c7 = c7))
      = declaredOrder N c1 c3 c5 c7 := by
  have hd := declaredOrder_eq_body h1 h2 c1 c3 c5 c7
  have hit : iterations N c1 = loop_c3 N c1 := by
    unfold iterations; rw [if_pos hb.1]
  have hfil := interleaving_filter ht (iterations_label N) c1
  obtain ⟨pre, post, he, hn⟩ := loop_c3_around hb
  rw [filter_point_of_iteration, hfil, hit, he, hd]
  exact filter_point_around pre _ post (fun x hx => body_point hx)
    (fun x hx hh => (hn x hx).2 hh.2)

/-- C2 (amended): in every execution of the generated loop nest, whatever the
interleaving of the iterations of the parallel loop `c1`, the stores of a
point `(c1, c3, c5, c7)` inside the loop bounds are executed in the single
order `C_init`, `E_init`, the updates of `c_C` for `c9 = 0, ..., N - 1`, the
updates of `c_E` for `c9 = 0, ..., N - 1`, each exactly once, the
initialisations outside every `c9` loop; among the stores of the same
iteration `c1` they are contiguous; and when the parallel loop is run
sequentially they are contiguous among all stores. -/
theorem schedule_order (N c1 c3 c5 c7 : Int) (h1 : 0 ≤ N) (h2 : N < 2147483648)
    (hb : inBounds N c1 c3 c5 c7) (t : List Inst) (ht : Execution N t) :
    t.filter (fun s => decide (s.c1 = c1 ∧ s.c3 = c3 ∧ s.c5 = c5 ∧ s.c7 = c7))
      = declaredOrder N c1 c3 c5 c7 ∧
    (∃ pre post : List Inst,
      t.filter (fun s => decide (s.c1 = c1)) = pre ++ declaredOrder N c1 c3 c5 c7 ++ post ∧
      ∀ x ∈ pre ++ post, x.c1 = c1 ∧ ¬ (x.c3 = c3 ∧ x.c5 = c5 ∧ x.c7 = c7)) ∧
    (Execution N (generated_nest N) ∧ ∃ pre post : List Inst,
      generated_nest N = pre ++ declaredOrder N c1 c3 c5 c7 ++ post ∧
      ∀ x ∈ pre ++ post, ¬ (x.c1 = c1 ∧ x.c3 = c3 ∧ x.c5 = c5 ∧ x.c7 = c7)) ∧
    t.count (stmt_C_init c1 c3 c5 c7) = 1 ∧ t.count (stmt_E_init c1 c3 c5 c7) = 1 ∧
    (stmt_C_init c1 c3 c5 c7).c9 = none ∧ (stmt_E_init c1 c3 c5 c7).c9 = none := by
  have hd := declaredOrder_eq_body h1 h2 c1 c3 c5 c7
  have hit : iterations N c1 = loop_c3 N c1 := by
    unfold iterations; rw [if_pos hb.1]
  have hfil := interleaving_filter ht (iterations_label N) c1
  obtain ⟨pre, post, he, hn⟩ := loop_c3_around hb
  have hpoint := execution_point_filter h1 h2 hb ht
  have hcount : ∀ y : Inst, y.c1 = c1 ∧ y.c3 = c3 ∧ y.c5 = c5 ∧ y.c7 = c7 →
      t.count y = (body N c1 c3 c5 c7).count y := by
    intro y hy
    rw [← hd, ← hpoint, List.count_filter (by simpa using hy)]
  obtain ⟨pre1, post1, he1, hn1⟩ := generated_nest_around hb
  refine ⟨hpoint, ⟨pre, post, ?_, hn⟩, ⟨generated_nest_execution N, pre1, post1, ?_, hn1⟩,
    ?_, ?_, rfl, rfl⟩
  · rw [hfil, hit, he, hd]
  · rw [he1, hd]
  · rw [hcount _ ⟨rfl, rfl, rfl, rfl⟩]; exact (count_init_body N c1 c3 c5 c7).1
  · rw [hcount _ ⟨rfl, rfl, rfl, rfl⟩]; exact (count_init_body N c1 c3 c5 c7).2

/-- C2, witness: the point `(0, 0, 0, 0)` in the overlapping execution of the
statement for `N = 1000`. -/
theorem schedule_order_witness :
    (interleaved_run 1000).filter
        (fun s => decide (s.c1 = 0 ∧ s.c3 = 0 ∧ s.c5 = 0 ∧ s.c7 = 0))
      = declaredOrder 1000 0 0 0 0 ∧
    (∃ pre post : List Inst,
      (interleaved_run 1000).filter (fun s => decide (s.c1 = 0))
        = pre ++ declaredOrder 1000 0 0 0 0 ++ post ∧
      ∀ x ∈ pre ++ post, x.c1 = 0 ∧ ¬ (x.c3 = 0 ∧ x.c5 = 0 ∧ x.c7 = 0)) ∧
    (Execution 1000 (generated_nest 1000) ∧ ∃ pre post : List Inst,
      generated_nest 1000 = pre ++ declaredOrder 1000 0 0 0 0 ++ post ∧
      ∀ x ∈ pre ++ post, ¬ (x.c1 = 0 ∧ x.c3 = 0 ∧ x.c5 = 0 ∧ x.c7 = 0)) ∧
    (interleaved_run 1000).count (stmt_C_init 0 0 0 0) = 1 ∧
    (interleaved_run 1000).count (stmt_E_init 0 0 0 0) = 1 ∧
    (stmt_C_init 0 0 0 0).c9 = none ∧ (stmt_E_init 0 0 0 0).c9 = none :=
  schedule_order 1000 0 0 0 0 (by decide) (by decide) (inBounds_1000 (by decide))
    (interleaved_run 1000) (interleaved_run_execution (by rw [outerExtent_1000]; decide))

/-- C2, counterexample: the overlapping run is an execution of the generated
statement (`N = 1000`) in which the store of `C_init` at the point
`(0, 0, 0, 0)` is followed at once by the store of `C_init` at the point
`(1, 0, 0, 0)`, a store of another iteration of the parallel loop, while the
store of `E_init` at `(0, 0, 0, 0)` is executed later. -/
theorem schedule_order_counterexample :
    inBounds 1000 0 0 0 0 ∧ Execution 1000 (interleaved_run 1000) ∧
    ∃ rest : List Inst,
      interleaved_run 1000 = stmt_C_init 0 0 0 0 :: stmt_C_init 1 0 0 0 :: rest ∧
      stmt_E_init 0 0 0 0 ∈ rest ∧
      ¬ (∃ pre post : List Inst,
        interleaved_run 1000 = pre ++ declaredOrder 1000 0 0 0 0 ++ post) := by
  obtain ⟨t0, h0⟩ := @loop_c3_head 1000 0 (inBounds_1000 (by decide))
  obtain ⟨t1, h1⟩ := @loop_c3_head 1000 1 (inBounds_1000 (by decide))
  have hex : Execution 1000 (interleaved_run 1000) :=
    interleaved_run_execution (by rw [outerExtent_1000]; decide)
  have hrun : interleaved_run 1000 = stmt_C_init 0 0 0 0 :: stmt_C_init 1 0 0 0 ::
      (stmt_E_init 1 0 0 0 :: t1 ++ (stmt_E_init 0 0 0 0 :: t0)
        ++ forLoop 2 (outerExtent 1000 - 2) (loop_c3 1000)) := by
    unfold interleaved_run
    rw [h0, h1]
    simp
  refine ⟨inBounds_1000 (by decide), hex, _, hrun, by simp, ?_⟩
  rintro ⟨pre, post, hpp⟩
  have hD : ∀ x ∈ declaredOrder 1000 0 0 0 0, x.c1 = 0 ∧ x.c3 = 0 ∧ x.c5 = 0 ∧ x.c7 = 0 := by
    intro x hx
    rw [declaredOrder_eq_body (by decide) (by decide)] at hx
    exact body_point hx
  have hDh : ∃ tl, declaredOrder 1000 0 0 0 0
      = stmt_C_init 0 0 0 0 :: stmt_E_init 0 0 0 0 :: tl := ⟨_, rfl⟩
  obtain ⟨tl, hDe⟩ := hDh
  cases pre with
  | nil =>
    rw [hrun, hDe] at hpp
    simp only [List.nil_append, List.cons_append, List.cons.injEq] at hpp
    have := congrArg Inst.comp hpp.2.1
    simp [stmt_C_init, stmt_E_init] at this
  | cons y pre1 =>
    have hy : y = stmt_C_init 0 0 0 0 := by
      rw [hrun] at hpp
      simp only [List.cons_append, List.cons.injEq] at hpp
      exact hpp.1.symm
    have hf := @execution_point_filter 1000 0 0 0 0
      (by decide) (by decide) (inBounds_1000 (by decide)) _ hex
    have hlen := congrArg List.length hf
    rw [hpp, List.filter_append, List.filter_append, List.length_append, List.length_append,
      List.filter_cons_of_pos (by rw [hy]; simp [stmt_C_init]), List.length_cons,
      (List.filter_eq_self (l := declaredOrder 1000 0 0 0 0)).2
        (fun x hx => by simpa using hD x hx)] at hlen
    omega

end Tutorial04B

namespace Tutorial04B

/-- C5: for `N` up to the declared 1000, with `i = 32*c1 + c5`, `j = 32*c3 + c7`
and `k = c9`, at every point inside the loop bounds and every `0 ≤ c9 < N` the
four stores are executed by the generated statement and every reference in
them has the row-major offset of the reference it lowers: `C_init` and `E_init`
store `(uint8)0` in `b_C`, `b_E` at `i*1000 + j`; `c_C` stores in `b_C` at
`i*1000 + j` the sum of `b_C` at `i*1000 + j` and the product of `b_A` at
`i*1000 + k` and `b_B` at `k*1000 + j`; `c_E` does the same with `b_E`, `b_A`
and `b_D`. Every store of the generated statement is one of these. -/
theorem access_row_major (N : Int) (h1 : 0 ≤ N) (h2 : N ≤ 1000) :
    (∀ c1 c3 c5 c7 c9 : Int, inBounds N c1 c3 c5 c7 → 0 ≤ c9 → c9 < N →
      (stmt_C_init c1 c3 c5 c7 ∈ generated_nest N ∧
        stmt_E_init c1 c3 c5 c7 ∈ generated_nest N ∧
        stmt_c_C c1 c3 c5 c7 c9 ∈ generated_nest N ∧
        stmt_c_E c1 c3 c5 c7 c9 ∈ generated_nest N) ∧
      (stmt_C_init c1 c3 c5 c7).dst = ⟨.b_C, (32 * c1 + c5) * 1000 + (32 * c3 + c7)⟩ ∧
      (stmt_C_init c1 c3 c5 c7).rhs = .zero ∧
      (stmt_E_init c1 c3 c5 c7).dst = ⟨.b_E, (32 * c1 + c5) * 1000 + (32 * c3 + c7)⟩ ∧
      (stmt_E_init c1 c3 c5 c7).rhs = .zero ∧
      (stmt_c_C c1 c3 c5 c7 c9).dst = ⟨.b_C, (32 * c1 + c5) * 1000 + (32 * c3 + c7)⟩ ∧
      (stmt_c_C c1 c3 c5 c7 c9).rhs =
        .mac ⟨.b_C, (32 * c1 + c5) * 1000 + (32 * c3 + c7)⟩
             ⟨.b_A, (32 * c1 + c5) * 1000 + c9⟩ ⟨.b_B, c9 * 1000 + (32 * c3 + c7)⟩ ∧
      (stmt_c_E c1 c3 c5 c7 c9).dst = ⟨.b_E, (32 * c1 + c5) * 1000 + (32 * c3 + c7)⟩ ∧
      (stmt_c_E c1 c3 c5 c7 c9).rhs =
        .mac ⟨.b_E, (32 * c1 + c5) * 1000 + (32 * c3 + c7)⟩
             ⟨.b_A, (32 * c1 + c5) * 1000 + c9⟩ ⟨.b_D, c9 * 1000 + (32 * c3 + c7)⟩) ∧
    (∀ s ∈ generated_nest N, inBounds N s.c1 s.c3 s.c5 s.c7 ∧
      (s = stmt_C_init s.c1 s.c3 s.c5 s.c7 ∨ s = stmt_E_init s.c1 s.c3 s.c5 s.c7 ∨
        ∃ k : Int, (0 ≤ k ∧ k < N) ∧
          (s = stmt_c_C s.c1 s.c3 s.c5 s.c7 k ∨ s = stmt_c_E s.c1 s.c3 s.c5 s.c7 k))) := by
  have hred : redExtent N = N := redExtent_eq h1 (by omega)
  constructor
  · intro c1 c3 c5 c7 c9 hb h90 h9N
    have h9 : 0 ≤ c9 ∧ c9 < 0 + redExtent N := by rw [hred]; omega
    obtain ⟨a, b, c, d, e, f⟩ := stmt_refs N c1 c3 c5 c7 c9 h1 h2 hb h9
    refine ⟨⟨?_, ?_, ?_, ?_⟩, a, rfl, b, rfl, c, d, e, f⟩
    · exact mem_generated_nest.2 ⟨c1, c3, c5, c7, hb, mem_body.2 (Or.inl rfl)⟩
    · exact mem_generated_nest.2 ⟨c1, c3, c5, c7, hb, mem_body.2 (Or.inr (Or.inl rfl))⟩
    · exact mem_generated_nest.2 ⟨c1, c3, c5, c7, hb,
        mem_body.2 (Or.inr (Or.inr (Or.inl ⟨c9, h9, rfl⟩)))⟩
    · exact mem_generated_nest.2 ⟨c1, c3, c5, c7, hb,
        mem_body.2 (Or.inr (Or.inr (Or.inr ⟨c9, h9, rfl⟩)))⟩
  · intro s hs
    obtain ⟨c1, c3, c5, c7, hb, hm⟩ := mem_generated_nest.1 hs
    rcases mem_body.1 hm with h | h | ⟨c9, h9, h⟩ | ⟨c9, h9, h⟩
    · subst h; exact ⟨hb, Or.inl rfl⟩
    · subst h; exact ⟨hb, Or.inr (Or.inl rfl)⟩
    · subst h
      rw [hred] at h9
      exact ⟨hb, Or.inr (Or.inr ⟨c9, ⟨h9.1, by omega⟩, Or.inl rfl⟩)⟩
    · subst h
      rw [hred] at h9
      exact ⟨hb, Or.inr (Or.inr ⟨c9, ⟨h9.1, by omega⟩, Or.inr rfl⟩)⟩

/-- C5, witness: the statement for `N = 1000` at `c1 = 1`, `c3 = 2`, `c5 = 3`,
`c7 = 4`, `c9 = 5`, that is `i = 35`, `j = 68`, `k = 5`: `b_C` is addressed at
`35068`, `b_A` at `35005`, `b_B` and `b_D` at `5068`. -/
theorem access_row_major_witness :
    ((0 : Int) ≤ 1000 ∧ (1000 : Int) ≤ 1000) ∧
    (stmt_c_C 1 2 3 4 5 ∈ generated_nest 1000 ∧ stmt_c_E 1 2 3 4 5 ∈ generated_nest 1000) ∧
    (stmt_C_init 1 2 3 4).dst = ⟨.b_C, 35068⟩ ∧
    (stmt_c_C 1 2 3 4 5).dst = ⟨.b_C, 35068⟩ ∧
    (stmt_c_C 1 2 3 4 5).rhs = .mac ⟨.b_C, 35068⟩ ⟨.b_A, 35005⟩ ⟨.b_B, 5068⟩ ∧
    (stmt_c_E 1 2 3 4 5).dst = ⟨.b_E, 35068⟩ ∧
    (stmt_c_E 1 2 3 4 5).rhs = .mac ⟨.b_E, 35068⟩ ⟨.b_A, 35005⟩ ⟨.b_D, 5068⟩ := by
  obtain ⟨⟨_, _, mC, mE⟩, dCi, _, _, _, dC, rC, dE, rE⟩ :=
    (access_row_major 1000 (by decide) (by decide)).1 1 2 3 4 5
      (inBounds_1000 (by decide)) (by decide) (by decide)
  exact ⟨⟨by decide, by decide⟩, ⟨mC, mE⟩, dCi, dC, rC, dE, rE⟩

end Tutorial04B
